import Mathlib

/-!
# A shallow embedding of the `gamegame` networking / replication core

This file embeds, in Lean 4, the core of the repository: the wire codec
(`PROTOCOL_HEADER` framing over a pickle-style serialization), the `Client`
receive path, the abstract `Server` step machine (message drain, idle-timeout
disconnect scan, retransmission of unacknowledged messages), the replicated
command model (`Command`, `OnlyMostRecentCommand` watermarks), the player
physics/collision model, and the authoritative `GameServer` tick.

Modelling conventions:
* Python `float` values are modelled as exact rationals (`ℚ`); square roots
  (used by `pygame.Vector2.length`, `normalize` and `distance_to`) are
  abstracted as an explicit function parameter `sqrt : ℚ → ℚ`, so theorems
  state the hypotheses about `sqrt` they actually need.
* Python `dict`s are association lists with Python's update semantics:
  updating an existing key keeps its position, a fresh key is appended
  (insertion order is observable via iteration, which the source relies on).
* Python `set`s are duplicate-free lists with add / discard / remove.
* Fallible code (statements that can raise `KeyError`, `pickle` errors or
  explicit `raise`) returns `Except`.
* `pickle` is an external library; it is modelled by a concrete injective
  serialization `dumps` with a parser `loads` that returns `none` exactly on
  byte strings outside the image of the serializer (where the library raises).
-/

/-- Bytes of a datagram, each entry intended in `0..255`. -/
abbrev Bytes := List Nat

/-- `network.PROTOCOL_ID = 718420690`. -/
def PROTOCOL_ID : Nat := 718420690

/-- `PROTOCOL_ID.to_bytes(4, byteorder='little')`. -/
def PROTOCOL_HEADER : Bytes :=
  [PROTOCOL_ID % 256, PROTOCOL_ID / 256 % 256,
   PROTOCOL_ID / 256 ^ 2 % 256, PROTOCOL_ID / 256 ^ 3 % 256]

/-- `network.PORT = 39311`. -/
def PORT : Nat := 39311

/-- A transport address: (host, port), as the `(ip, port)` tuples of the
source.  Hosts are abstracted to naturals. -/
abbrev Address := Nat × Nat

/-- `pygame.Vector2`, with rational components. -/
structure Vec where
  x : ℚ
  y : ℚ
deriving DecidableEq, Repr

namespace Vec

def zero : Vec := ⟨0, 0⟩

def add (a b : Vec) : Vec := ⟨a.x + b.x, a.y + b.y⟩

def sub (a b : Vec) : Vec := ⟨a.x - b.x, a.y - b.y⟩

def smul (c : ℚ) (a : Vec) : Vec := ⟨c * a.x, c * a.y⟩

/-- `v / c` (componentwise scalar division, as pygame's `Vector2.__truediv__`). -/
def sdiv (a : Vec) (c : ℚ) : Vec := ⟨a.x / c, a.y / c⟩

/-- Squared euclidean length; `Vector2.length()` is `sqrt (lsq v)`. -/
def lsq (a : Vec) : ℚ := a.x * a.x + a.y * a.y

end Vec

/-! ## Association lists with Python `dict` semantics, and Python `set`s -/

section Assoc

variable {κ α : Type} [DecidableEq κ]

/-- `d[k]` lookup, as an `Option`. -/
def findA (k : κ) : List (κ × α) → Option α
  | [] => none
  | (k', v) :: rest => if k' = k then some v else findA k rest

/-- `d[k] = v`: replace in place if the key exists (keeping its position in
the iteration order), else append, as CPython dicts do. -/
def setA (k : κ) (v : α) : List (κ × α) → List (κ × α)
  | [] => [(k, v)]
  | (k', v') :: rest => if k' = k then (k, v) :: rest else (k', v') :: setA k v rest

/-- `del d[k]` / `set.discard`: remove the entry if present (first match). -/
def eraseA (k : κ) : List (κ × α) → List (κ × α)
  | [] => []
  | (k', v') :: rest => if k' = k then rest else (k', v') :: eraseA k rest

/-- The keys of the map, in iteration order. -/
def keysA (l : List (κ × α)) : List κ := l.map Prod.fst

end Assoc

section PySet

variable {α : Type} [DecidableEq α]

/-- `s.add(x)`: insert if absent (Python sets: no duplicates). -/
def addS (x : α) (s : List α) : List α := if x ∈ s then s else s ++ [x]

/-- `s.discard(x)` / `s.remove(x)` with the `KeyError` caught: remove if present. -/
def delS (x : α) : List α → List α
  | [] => []
  | a :: as => if a = x then as else a :: delS x as

lemma delS_sub {x y : α} {s : List α} (h : x ∈ delS y s) : x ∈ s := by
  induction s with
  | nil => exact absurd h (List.not_mem_nil x)
  | cons a as ih =>
    rw [delS] at h
    split at h
    · exact List.mem_cons_of_mem _ h
    · rcases List.mem_cons.mp h with rfl | hmem
      · exact List.mem_cons_self _ _
      · exact List.mem_cons_of_mem _ (ih hmem)

lemma mem_delS_of_ne {x y : α} {s : List α} (hne : x ≠ y) (h : x ∈ s) :
    x ∈ delS y s := by
  induction s with
  | nil => exact absurd h (List.not_mem_nil x)
  | cons a as ih =>
    rw [delS]
    split
    · rename_i hay
      rcases List.mem_cons.mp h with rfl | hmem
      · exact absurd hay hne
      · exact hmem
    · rcases List.mem_cons.mp h with rfl | hmem
      · exact List.mem_cons_self _ _
      · exact List.mem_cons_of_mem _ (ih hmem)

lemma delS_nodup {y : α} {s : List α} (h : s.Nodup) : (delS y s).Nodup := by
  induction s with
  | nil => exact h
  | cons a as ih =>
    rw [delS]
    rcases List.nodup_cons.mp h with ⟨hna, hnd⟩
    split
    · exact hnd
    · exact List.nodup_cons.mpr ⟨fun hc => hna (delS_sub hc), ih hnd⟩

lemma not_mem_delS {y : α} {s : List α} (h : s.Nodup) : y ∉ delS y s := by
  induction s with
  | nil => simp [delS]
  | cons a as ih =>
    rw [delS]
    rcases List.nodup_cons.mp h with ⟨hna, hnd⟩
    split
    · rename_i hay
      rw [← hay]
      exact hna
    · rename_i hay
      intro hc
      rcases List.mem_cons.mp hc with rfl | hmem
      · exact hay rfl
      · exact ih hnd hmem

lemma delS_of_not_mem {y : α} {s : List α} (h : y ∉ s) : delS y s = s := by
  induction s with
  | nil => rfl
  | cons a as ih =>
    rw [delS]
    split
    · rename_i hay
      exact absurd (hay ▸ List.mem_cons_self a as) h
    · rw [ih (fun hc => h (List.mem_cons_of_mem _ hc))]

end PySet

/-! ## Player (`player.py`) -/

/-- Models `getpass.getuser()` (environment-dependent default player name). -/
def defaultName : String := "user"

/-- `player.Player` (the gameplay one, `player.py`).  The presentation-only
fields (`font`, `debug`) are omitted; `last_acceleration` is set by
`__post_init__` and — notably — never written again by `physics`. -/
structure Player where
  id : Nat
  name : String := defaultName
  force : Vec := Vec.zero
  acceleration : Vec := Vec.zero
  velocity : Vec := Vec.zero
  position : Vec := Vec.zero
  input_force : ℚ := 325
  radius : ℚ := 1/2
  mass : ℚ := 50
  drag : ℚ := 4
  brake : ℚ := 25
  incosistent_surface : ℚ := 1/500
  braking : Bool := false
  last_acceleration : Vec := Vec.zero
deriving DecidableEq, Repr

/-- `Player(id_)`: a freshly constructed player (all dataclass defaults,
`__post_init__` zeroing `last_acceleration`). -/
def Player.fresh (id : Nat) : Player := { id := id }

/-! Key constants from `pygame` used by the input mapping. -/

def K_w : Nat := 119
def K_a : Nat := 97
def K_s : Nat := 115
def K_d : Nat := 100
def K_SPACE : Nat := 32
def K_UP : Nat := 1073741906
def K_DOWN : Nat := 1073741905
def K_LEFT : Nat := 1073741904
def K_RIGHT : Nat := 1073741903

namespace Player

/-- `Player.input_vector`: sum the four cardinal contributions of the
movement keys, then normalize if the result has non-zero length.
`sqrt` abstracts the floating-point square root inside `length`/`normalize`. -/
def input_vector (sqrt : ℚ → ℚ) (pressed : List Nat) : Vec :=
  let d0 := Vec.zero
  let d1 := if K_w ∈ pressed ∨ K_UP ∈ pressed then d0.sub ⟨0, 1⟩ else d0
  let d2 := if K_a ∈ pressed ∨ K_LEFT ∈ pressed then d1.sub ⟨1, 0⟩ else d1
  let d3 := if K_s ∈ pressed ∨ K_DOWN ∈ pressed then d2.add ⟨0, 1⟩ else d2
  let d4 := if K_d ∈ pressed ∨ K_RIGHT ∈ pressed then d3.add ⟨1, 0⟩ else d3
  if sqrt d4.lsq ≠ 0 then d4.sdiv (sqrt d4.lsq) else Vec.zero

/-- `Player.input`: accumulate the input force, record braking. -/
def input (sqrt : ℚ → ℚ) (keys : List Nat) (p : Player) : Player :=
  { p with
    force := p.force.add ((input_vector sqrt keys).smul p.input_force)
    braking := K_SPACE ∈ keys }

/-- `Player.physics(deltatime)`: drag, brake, inconsistent-surface damping,
then Euler integration of acceleration, velocity and position, and reset of
the force accumulator.  `last_acceleration` is (faithfully) not touched. -/
def physics (sqrt : ℚ → ℚ) (dt : ℚ) (p : Player) : Player :=
  let lenV := sqrt p.velocity.lsq
  let drag_force := lenV ^ 2 * p.drag
  let f1 := if lenV ≠ 0 then p.force.sub ((p.velocity.sdiv lenV).smul drag_force)
            else p.force
  let brake_force := lenV ^ 2 * p.brake
  let f2 := if p.braking ∧ lenV ≠ 0 then f1.sub ((p.velocity.sdiv lenV).smul brake_force)
            else f1
  let v1 := if p.incosistent_surface > 0 then
              (if lenV > p.incosistent_surface then
                 p.velocity.sub ((p.velocity.sdiv lenV).smul p.incosistent_surface)
               else p.velocity.sub p.velocity)
            else p.velocity
  let acc := f2.sdiv p.mass
  let v2 := v1.add (acc.smul dt)
  let pos := p.position.add (v2.smul dt)
  { p with force := Vec.zero, acceleration := acc, velocity := v2, position := pos }

/-- `Player.update(pressed_keys, deltatime)`. -/
def update (sqrt : ℚ → ℚ) (pressed : List Nat) (dt : ℚ) (p : Player) : Player :=
  (p.input sqrt pressed).physics sqrt dt

end Player

/-- One iteration of the body of `Player.collision`: `selfP` (the player
whose `collision` method is running) against `other`.  Performs the exchange
only when `selfP.id > other.id` and the centers are closer than the sum of
the radii; returns the updated pair `(selfP, other)`. -/
def collideWith (sqrt : ℚ → ℚ) (selfP other : Player) : Player × Player :=
  if selfP.id > other.id ∧ sqrt ((selfP.position.sub other.position).lsq)
      < selfP.radius + other.radius then
    let m := selfP.mass
    let M := other.mass
    let u := selfP.velocity
    let U := other.velocity
    let newSelf := ((U.smul (2 * M)).sub (u.smul M) |>.add (u.smul m)).sdiv (M + m)
    let newOther := ((U.smul M).sub (U.smul m) |>.add (u.smul (2 * m))).sdiv (M + m)
    ({ selfP with velocity := newSelf }, { other with velocity := newOther })
  else (selfP, other)

/-- One iteration of `Player.collision`'s `for other in others` loop, on
the players map: reread the current `self` and `other` (they alias map
entries), run the guarded exchange, write both back.  When `oid = selfId`
the guard `self.id > other.id` is false and nothing happens. -/
def collideStep (sqrt : ℚ → ℚ) (selfId : Nat) (ps : List (Nat × Player))
    (oid : Nat) : List (Nat × Player) :=
  match findA selfId ps, findA oid ps with
  | some selfP, some other =>
      if selfId = oid then ps
      else
        let so := collideWith sqrt selfP other
        setA oid so.2 (setA selfId so.1 ps)
  | _, _ => ps

/-- `Player.collision(others)` as it runs inside `GameServer.update`:
`players[selfId].collision(players.values())`.  `self` is an alias of the
map entry at `selfId`, and updates to it and to the others write through to
the map, so the whole pass is a fold over the map's iteration order that
rereads the current values at each step. -/
def collisionPass (sqrt : ℚ → ℚ) (selfId : Nat)
    (players : List (Nat × Player)) : List (Nat × Player) :=
  (keysA players).foldl (collideStep sqrt selfId) players

/-! ## Scope and the replicated command model (`scope.py`, `network.py`) -/

/-- `scope.Scope`: the world state. `Id` is `class Id(int)`, modelled as `Nat`. -/
structure Scope where
  id_ : Option Nat := none
  circle_radius : ℚ := 20
  players : List (Nat × Player) := []
deriving DecidableEq, Repr

/-- The command variants of `network.py`.  The latest-only commands
(`SetRadiusCommand`, `SetPositionCommand`) carry the sequence number drawn
at construction from their type's global counter (`self._count`). -/
inductive Cmd where
  | setId (id : Nat)
  | setRadius (count : Nat) (radius : ℚ)
  | removePlayer (id : Nat)
  | setPosition (count : Nat) (id : Nat) (position last_acceleration velocity : Vec)
deriving DecidableEq, Repr

/-- Every object that crosses the wire: commands, inputs, acknowledgments. -/
inductive Obj where
  | cmd (c : Cmd)
  | keyUp (key : Nat)
  | keyDown (key : Nat)
  | ping
  | ack (o : Obj)
deriving DecidableEq, Repr

/-- `isinstance(obj, Acknowledged)`: only `SetIdCommand` and
`RemovePlayerCommand` subclass `Acknowledged`. -/
def isAcknowledged : Obj → Bool
  | .cmd (.setId _) => true
  | .cmd (.removePlayer _) => true
  | _ => false

/-- The class-level watermarks `cls._max_count` of the two
`OnlyMostRecentCommand` subclasses (process-global state, initially 0). -/
structure CmdMeta where
  maxRadius : Nat := 0
  maxPosition : Nat := 0
deriving DecidableEq, Repr

/-- `cmd.run(scope)`, with the `OnlyMostRecentCommand.__init_subclass__`
wrapper: run only when `self._count >= cls._max_count`, advancing the
watermark first.  `RemovePlayerCommand.run` does a bare `del`, so an absent
id raises `KeyError` (modelled as `Except.error ()`). -/
def Cmd.run (c : Cmd) (meta : CmdMeta) (scope : Scope) :
    Except Unit (CmdMeta × Scope) :=
  match c with
  | .setId id => .ok (meta, { scope with id_ := some id })
  | .setRadius count radius =>
      if count ≥ meta.maxRadius then
        .ok ({ meta with maxRadius := count }, { scope with circle_radius := radius })
      else .ok (meta, scope)
  | .removePlayer id =>
      match findA id scope.players with
      | some _ => .ok (meta, { scope with players := eraseA id scope.players })
      | none => .error ()
  | .setPosition count id position last_acceleration velocity =>
      if count ≥ meta.maxPosition then
        let p := (findA id scope.players).getD (Player.fresh id)
        let p' := { p with position := position,
                           last_acceleration := last_acceleration,
                           velocity := velocity }
        .ok ({ meta with maxPosition := count },
             { scope with players := setA id p' scope.players })
      else .ok (meta, scope)

/-! ## The pickle model and the wire codec -/

/-- Model of `pickle.dumps` for naturals: little-endian base-255 digits
followed by a `255` terminator byte. -/
def encNat (n : Nat) : List Nat := Nat.digits 255 n ++ [255]

/-- Integers: a sign byte then the magnitude. -/
def encInt (i : Int) : List Nat := (if i < 0 then 1 else 0) :: encNat i.natAbs

/-- Rationals: numerator then denominator. -/
def encRat (q : ℚ) : List Nat := encInt q.num ++ encNat q.den

/-- Vectors: the two components. -/
def encVec (v : Vec) : List Nat := encRat v.x ++ encRat v.y

/-- Model of `pickle.dumps`: a tag byte then the fields. -/
def dumps : Obj → List Nat
  | .cmd (.setId id) => 0 :: encNat id
  | .cmd (.removePlayer id) => 1 :: encNat id
  | .cmd (.setRadius c r) => 2 :: (encNat c ++ encRat r)
  | .cmd (.setPosition c id p la v) =>
      3 :: (encNat c ++ encNat id ++ encVec p ++ encVec la ++ encVec v)
  | .keyUp k => 4 :: encNat k
  | .keyDown k => 5 :: encNat k
  | .ping => [6]
  | .ack o => 7 :: dumps o

/-- Parse a natural, returning the remaining bytes; `none` on malformed input. -/
def decNat : List Nat → Option (Nat × List Nat)
  | [] => none
  | b :: rest =>
      if b = 255 then some (0, rest)
      else if b < 255 then (decNat rest).map (fun p => (b + 255 * p.1, p.2))
      else none

/-- Parse an integer. -/
def decInt : List Nat → Option (Int × List Nat)
  | [] => none
  | s :: rest =>
      if s = 0 then (decNat rest).map (fun p => ((p.1 : Int), p.2))
      else if s = 1 then (decNat rest).map (fun p => (-(p.1 : Int), p.2))
      else none

/-- Parse a rational. -/
def decRat (l : List Nat) : Option (ℚ × List Nat) :=
  match decInt l with
  | some (n, r1) =>
      match decNat r1 with
      | some (d, r2) => some (mkRat n d, r2)
      | none => none
  | none => none

/-- Parse a vector. -/
def decVec (l : List Nat) : Option (Vec × List Nat) :=
  match decRat l with
  | some (x, r1) =>
      match decRat r1 with
      | some (y, r2) => some (⟨x, y⟩, r2)
      | none => none
  | none => none

/-- Parse one object (tag byte then fields). -/
def parseObj : List Nat → Option (Obj × List Nat)
  | [] => none
  | t :: rest =>
      if t = 0 then (decNat rest).map (fun p => (.cmd (.setId p.1), p.2))
      else if t = 1 then (decNat rest).map (fun p => (.cmd (.removePlayer p.1), p.2))
      else if t = 2 then
        match decNat rest with
        | some (c, r1) =>
            match decRat r1 with
            | some (r, r2) => some (.cmd (.setRadius c r), r2)
            | none => none
        | none => none
      else if t = 3 then
        match decNat rest with
        | some (c, r1) =>
            match decNat r1 with
            | some (id, r2) =>
                match decVec r2 with
                | some (p, r3) =>
                    match decVec r3 with
                    | some (la, r4) =>
                        match decVec r4 with
                        | some (v, r5) => some (.cmd (.setPosition c id p la v), r5)
                        | none => none
                    | none => none
                | none => none
            | none => none
        | none => none
      else if t = 4 then (decNat rest).map (fun p => (.keyUp p.1, p.2))
      else if t = 5 then (decNat rest).map (fun p => (.keyDown p.1, p.2))
      else if t = 6 then some (.ping, rest)
      else if t = 7 then (parseObj rest).map (fun p => (.ack p.1, p.2))
      else none

/-- Model of `pickle.loads`: parse one object consuming all the bytes;
`none` models the `pickle` exception on malformed input. -/
def loads (data : List Nat) : Option Obj :=
  match parseObj data with
  | some (o, []) => some o
  | _ => none

/-! ## Client (`network.Client`) -/

/-- Client state: `self.host`, the configured remote address. -/
structure ClientState where
  host : Nat
deriving DecidableEq, Repr

/-- `Client.recive()`.  The argument is the waiting datagram, if any
(`none` models `BlockingIOError`, returned as `None`).  The result is
`(returned value, acknowledgment sent back)`; `Except.error` models an
exception escaping to the caller (here: `pickle.loads` on a datagram that
passes the address and header checks but has a malformed body). -/
def clientRecive (st : ClientState) (dgram : Option (Bytes × Address)) :
    Except Unit (Option Obj × Option Obj) :=
  match dgram with
  | none => .ok (none, none)
  | some (data, address) =>
      if address.1 = st.host ∧ PROTOCOL_HEADER.isPrefixOf data then
        match loads (data.drop PROTOCOL_HEADER.length) with
        | some obj =>
            .ok (some obj, if isAcknowledged obj then some (.ack obj) else none)
        | none => .error ()
      else .ok (none, none)

/-! ## Claims C1 and C4: command semantics -/

/-- **C1.** For each latest-only command type (`SetRadiusCommand`,
`SetPositionCommand`): `run` is a no-op when the instance's sequence number
is strictly below the per-type watermark, otherwise it advances the
watermark to that number and performs the mutation; consequently applying
two instances with sequence numbers 5 and 7 in the order (7, 5) from any
watermark at most 7 leaves exactly the state produced by instance 7 alone. -/
theorem latest_only_watermark_ordering :
    (∀ cnt r meta scope, cnt < meta.maxRadius →
      Cmd.run (.setRadius cnt r) meta scope = .ok (meta, scope)) ∧
    (∀ cnt r meta scope, cnt ≥ meta.maxRadius →
      Cmd.run (.setRadius cnt r) meta scope =
        .ok ({ meta with maxRadius := cnt }, { scope with circle_radius := r })) ∧
    (∀ cnt id p la v meta scope, cnt < meta.maxPosition →
      Cmd.run (.setPosition cnt id p la v) meta scope = .ok (meta, scope)) ∧
    (∀ cnt id p la v meta scope, cnt ≥ meta.maxPosition →
      Cmd.run (.setPosition cnt id p la v) meta scope =
        .ok ({ meta with maxPosition := cnt },
             { scope with players := setA id { (findA id scope.players).getD (Player.fresh id) with position := p, last_acceleration := la, velocity := v } scope.players })) ∧
    (∀ r7 r5 meta scope, meta.maxRadius ≤ 7 →
      (Cmd.run (.setRadius 7 r7) meta scope).bind
          (fun ms => Cmd.run (.setRadius 5 r5) ms.1 ms.2) =
        Cmd.run (.setRadius 7 r7) meta scope) ∧
    (∀ id7 p7 la7 v7 id5 p5 la5 v5 meta scope, meta.maxPosition ≤ 7 →
      (Cmd.run (.setPosition 7 id7 p7 la7 v7) meta scope).bind
          (fun ms => Cmd.run (.setPosition 5 id5 p5 la5 v5) ms.1 ms.2) =
        Cmd.run (.setPosition 7 id7 p7 la7 v7) meta scope) := by
  refine ⟨?_, ?_, ?_, ?_, ?_, ?_⟩
  · intro cnt r meta scope h
    simp [Cmd.run, Nat.not_le.mpr h]
  · intro cnt r meta scope h
    simp [Cmd.run, h]
  · intro cnt id p la v meta scope h
    simp [Cmd.run, Nat.not_le.mpr h]
  · intro cnt id p la v meta scope h
    simp [Cmd.run, h]
  · intro r7 r5 meta scope h
    simp [Cmd.run, h, Except.bind]
  · intro id7 p7 la7 v7 id5 p5 la5 v5 meta scope h
    simp [Cmd.run, h, Except.bind]

/-- Witness for C1 at concrete inputs (watermarks 0, radii 1 and 2,
position commands for players 3 and 4). -/
theorem latest_only_watermark_ordering_witness :
    Cmd.run (.setRadius 3 1) { maxRadius := 5 } {} = .ok ({ maxRadius := 5 }, {}) ∧
    Cmd.run (.setRadius 7 1) {} {} = .ok ({ maxRadius := 7 }, { circle_radius := 1 }) ∧
    (Cmd.run (.setRadius 7 1) {} {}).bind
        (fun ms => Cmd.run (.setRadius 5 2) ms.1 ms.2) =
      Cmd.run (.setRadius 7 1) {} {} ∧
    (Cmd.run (.setPosition 7 3 ⟨1, 0⟩ Vec.zero Vec.zero) {} {}).bind
        (fun ms => Cmd.run (.setPosition 5 4 ⟨2, 0⟩ Vec.zero Vec.zero) ms.1 ms.2) =
      Cmd.run (.setPosition 7 3 ⟨1, 0⟩ Vec.zero Vec.zero) {} {} := by
  refine ⟨?_, ?_, ?_, ?_⟩
  · exact latest_only_watermark_ordering.1 3 1 { maxRadius := 5 } {} (by decide)
  · exact latest_only_watermark_ordering.2.1 7 1 {} {} (by decide)
  · exact latest_only_watermark_ordering.2.2.2.2.1 1 2 {} {} (by decide)
  · exact latest_only_watermark_ordering.2.2.2.2.2 3 ⟨1, 0⟩ Vec.zero Vec.zero
      4 ⟨2, 0⟩ Vec.zero Vec.zero {} {} (by decide)

/-- **C4** (code bug).  `RemovePlayerCommand.run` deletes the player when
present, but on an absent id the bare `del scope.players[self.id_]` raises
`KeyError` instead of being a no-op: applied to a scope with no players,
`RemovePlayerCommand(1)` errors. -/
theorem removePlayer_absent_raises :
    Cmd.run (.removePlayer 1) {} { players := [(1, Player.fresh 1)] } =
      .ok ({}, { players := [] }) ∧
    Cmd.run (.removePlayer 1) {} { players := [] } = .error () := by
  constructor
  · rfl
  · rfl

/-! ## Server (`network.Server`), as a step machine

The abstract `Server` (hooks `handle_connect` / `handle_disconnect` /
`handle` recorded as events).  One `step()` takes the current wall-clock
time `now` and the list of datagrams drained from the socket this step;
`ConnectionResetError` / `BlockingIOError` are absorbed by the drain model.
Sends are recorded as events carrying the object (the datagram on the wire
is `PROTOCOL_HEADER ++ dumps obj`). -/

structure ServerState where
  clients : List Address := []
  timeouts : List (Address × ℚ) := []
  clientTimeout : ℚ := 2
  notAcknowledged : List (Address × Obj) := []
deriving DecidableEq, Repr

/-- Observable events of a server step: hook invocations and sends. -/
inductive SEvent where
  | connect (a : Address)
  | disconnect (a : Address)
  | handle (a : Address) (o : Obj)
  | send (a : Address) (o : Obj)
deriving DecidableEq, Repr

/-- `Server.send_to(address, obj, acknoledge)`: record the pending entry if
the payload is acknowledgment-worthy and `acknoledge` is set, then send. -/
def sendTo (st : ServerState) (a : Address) (o : Obj) (acknoledge : Bool) :
    ServerState × List SEvent :=
  (if isAcknowledged o && acknoledge then
     { st with notAcknowledged := addS (a, o) st.notAcknowledged }
   else st,
   [.send a o])

/-- `Server._handle_message(address, data)` (post-header-strip bytes):
refresh the last-activity timestamp, unpickle, then either consume an
`Acknowledge` (removing the named pending entry, absence ignored) or hand
the object to the `handle` hook.  A malformed body makes `pickle.loads`
raise (`Except.error`). -/
def handleMessage (now : ℚ) (st : ServerState) (evs : List SEvent)
    (a : Address) (data : Bytes) : Except Unit (ServerState × List SEvent) :=
  let st1 : ServerState := { st with timeouts := setA a now st.timeouts }
  match loads data with
  | none => .error ()
  | some (.ack o) =>
      .ok ({ st1 with notAcknowledged := delS (a, o) st1.notAcknowledged }, evs)
  | some obj => .ok (st1, evs ++ [.handle a obj])

/-- `Server._handle_connect(address, data)`: register the peer, run the
connect hook, then deliver the datagram as a normal message. -/
def handleConnectS (now : ℚ) (st : ServerState) (evs : List SEvent)
    (a : Address) (data : Bytes) : Except Unit (ServerState × List SEvent) :=
  handleMessage now { st with clients := st.clients ++ [a] }
    (evs ++ [.connect a]) a data

/-- One datagram of the `Server._handle_messages` drain loop: datagrams not
starting with `PROTOCOL_HEADER` are skipped entirely. -/
def processDatagram (now : ℚ) (acc : ServerState × List SEvent)
    (d : Bytes × Address) : Except Unit (ServerState × List SEvent) :=
  if PROTOCOL_HEADER.isPrefixOf d.1 then
    let body := d.1.drop PROTOCOL_HEADER.length
    if d.2 ∈ acc.1.clients then handleMessage now acc.1 acc.2 d.2 body
    else handleConnectS now acc.1 acc.2 d.2 body
  else .ok acc

/-- `Server._handle_messages()`: drain every queued datagram in order. -/
def handleMessages (now : ℚ) (acc : ServerState × List SEvent) :
    List (Bytes × Address) → Except Unit (ServerState × List SEvent)
  | [] => .ok acc
  | d :: rest =>
      match processDatagram now acc d with
      | .ok acc' => handleMessages now acc' rest
      | .error e => .error e

/-- `Server._handle_disconnect(address)`: drop the peer from the registry
and the last-activity map, run the disconnect hook. -/
def handleDisconnect (st : ServerState) (evs : List SEvent) (a : Address) :
    ServerState × List SEvent :=
  ({ st with clients := st.clients.erase a, timeouts := eraseA a st.timeouts },
   evs ++ [.disconnect a])

/-- The loop of `Server._check_disconnects` over the snapshot
`list(self.timeouts.items())`. -/
def scanGo (now : ℚ) : ServerState × List SEvent → List (Address × ℚ) →
    ServerState × List SEvent
  | acc, [] => acc
  | acc, p :: rest =>
      scanGo now
        (if now - p.2 > acc.1.clientTimeout then handleDisconnect acc.1 acc.2 p.1
         else acc) rest

/-- `Server._check_disconnects()`. -/
def checkDisconnects (now : ℚ) (acc : ServerState × List SEvent) :
    ServerState × List SEvent :=
  scanGo now acc acc.1.timeouts

/-- `Server.update()` of the abstract server: resend every still-pending
entry (via `send_to(..., acknoledge=False)`, so nothing is re-recorded). -/
def serverResend (acc : ServerState × List SEvent) : ServerState × List SEvent :=
  (acc.1, acc.2 ++ acc.1.notAcknowledged.map fun p => SEvent.send p.1 p.2)

/-- `Server.step()`: drain, disconnect scan, update. -/
def serverStep (now : ℚ) (st : ServerState) (inbound : List (Bytes × Address)) :
    Except Unit (ServerState × List SEvent) :=
  (handleMessages now (st, []) inbound).map
    (fun acc => serverResend (checkDisconnects now acc))

/-- A run of consecutive `step()` calls, each with its clock time and its
drained datagrams; events are concatenated. -/
def stepTrace (st : ServerState) :
    List (ℚ × List (Bytes × Address)) → Except Unit (ServerState × List SEvent)
  | [] => .ok (st, [])
  | (now, inbound) :: rest =>
      match serverStep now st inbound with
      | .ok (st', evs) => (stepTrace st' rest).map (fun r => (r.1, evs ++ r.2))
      | .error e => .error e

/-- The step's drain contains an acknowledgment, from peer `a`, naming the
payload `o` (a datagram that the drain loop will actually process as such). -/
def acksFor (inbound : List (Bytes × Address)) (a : Address) (o : Obj) : Prop :=
  ∃ d ∈ inbound, d.2 = a ∧ PROTOCOL_HEADER.isPrefixOf d.1 = true ∧
    loads (d.1.drop PROTOCOL_HEADER.length) = some (.ack o)

/-! ## Claims C5 and C7: codec rejection and the client receive filter -/

/-- **C5** (counterexample to the claim as stated).  A datagram that *does*
start with the protocol identifier but whose body is malformed is not
silently dropped: `pickle.loads` raises and the exception surfaces to the
caller of `Client.recive` (byte `255` is no valid serialization). -/
theorem malformed_body_after_header_raises :
    clientRecive ⟨1⟩ (some (PROTOCOL_HEADER ++ [255], (1, PORT))) = .error () := by
  rfl

/-- **C5** (amended).  A received byte string that does not start with the
4-byte protocol identifier is treated as "not ours" and dropped with no
exception, on both the `Client` receive path and the `Server` drain loop; a
datagram that does start with the identifier but whose body is malformed
instead raises (see the counterexample). -/
theorem prefix_mismatch_silently_dropped :
    (∀ st data addr, PROTOCOL_HEADER.isPrefixOf data = false →
      clientRecive st (some (data, addr)) = .ok (none, none)) ∧
    (∀ now acc data addr, PROTOCOL_HEADER.isPrefixOf data = false →
      processDatagram now acc (data, addr) = .ok acc) := by
  constructor
  · intro st data addr h
    simp [clientRecive, h]
  · intro now acc data addr h
    simp [processDatagram, h]

/-- Witness for C5's amended theorem: the byte string `[0]` (first byte 0,
header starts with 210) is dropped by both paths. -/
theorem prefix_mismatch_silently_dropped_witness :
    clientRecive ⟨1⟩ (some ([0], (1, PORT))) = .ok (none, none) ∧
    processDatagram 0 ({}, []) ([0], (1, PORT)) = .ok ({}, []) := by
  constructor
  · exact prefix_mismatch_silently_dropped.1 ⟨1⟩ [0] (1, PORT) (by decide)
  · exact prefix_mismatch_silently_dropped.2 0 ({}, []) [0] (1, PORT) (by decide)

/-- **C7.**  `Client.recive` returns a payload only when the datagram both
originates from the configured remote address (`self.host`) and starts with
the protocol header; a datagram from any other origin yields `None` (with
no exception, whatever its bytes), and an empty queue (`BlockingIOError`)
yields `None`. -/
theorem client_receive_origin_and_header_filter :
    (∀ st data addr ret ackSent,
      clientRecive st (some (data, addr)) = .ok (some ret, ackSent) →
      addr.1 = st.host ∧ PROTOCOL_HEADER.isPrefixOf data = true) ∧
    (∀ st data addr, addr.1 ≠ st.host →
      clientRecive st (some (data, addr)) = .ok (none, none)) ∧
    (∀ st, clientRecive st none = .ok (none, none)) := by
  refine ⟨?_, ?_, ?_⟩
  · intro st data addr ret ackSent h
    by_cases hg : addr.1 = st.host ∧ PROTOCOL_HEADER.isPrefixOf data
    · exact ⟨hg.1, hg.2⟩
    · rw [clientRecive, if_neg hg] at h
      exact absurd h (by simp)
  · intro st data addr h
    rw [clientRecive, if_neg (fun hg => h hg.1)]
  · intro st
    rfl

/-- Witness for C7 at concrete inputs: a ping datagram from the configured
host is returned; a datagram from a foreign host is dropped; an empty queue
yields `None`. -/
theorem client_receive_origin_and_header_filter_witness :
    ((1 : Nat) = 1 ∧ PROTOCOL_HEADER.isPrefixOf (PROTOCOL_HEADER ++ [6]) = true) ∧
    clientRecive ⟨1⟩ (some (PROTOCOL_HEADER ++ [6], (2, PORT))) = .ok (none, none) ∧
    clientRecive ⟨1⟩ none = .ok (none, none) := by
  refine ⟨?_, ?_, ?_⟩
  · exact client_receive_origin_and_header_filter.1 ⟨1⟩ (PROTOCOL_HEADER ++ [6])
      (1, PORT) .ping none (by rfl)
  · exact client_receive_origin_and_header_filter.2.1 ⟨1⟩ (PROTOCOL_HEADER ++ [6])
      (2, PORT) (by decide)
  · exact client_receive_origin_and_header_filter.2.2 ⟨1⟩

/-! ## Lemmas about the server step, toward claims C2 and C3 -/

/-- Characterization of a successful `_handle_message`. -/
lemma handleMessage_cases {now : ℚ} {st : ServerState} {evs : List SEvent}
    {a : Address} {data : Bytes} {st' : ServerState} {evs' : List SEvent}
    (h : handleMessage now st evs a data = .ok (st', evs')) :
    ∃ res, loads data = some res ∧
      ((∃ o, res = .ack o ∧
          st' = { st with timeouts := setA a now st.timeouts,
                          notAcknowledged := delS (a, o) st.notAcknowledged } ∧
          evs' = evs) ∨
       ((∀ o, res ≠ .ack o) ∧
          st' = { st with timeouts := setA a now st.timeouts } ∧
          evs' = evs ++ [.handle a res])) := by
  unfold handleMessage at h
  split at h
  · exact absurd h (by simp)
  · rename_i o hl
    obtain ⟨hst, hev⟩ := Prod.mk.inj (Except.ok.inj h)
    exact ⟨.ack o, hl, .inl ⟨o, rfl, hst.symm, hev.symm⟩⟩
  · rename_i obj hne hl
    obtain ⟨hst, hev⟩ := Prod.mk.inj (Except.ok.inj h)
    exact ⟨obj, hl, .inr ⟨fun o ho => hne o ho, hst.symm, hev.symm⟩⟩

/-- Characterization of one drain-loop iteration. -/
lemma processDatagram_cases {now : ℚ} {acc acc' : ServerState × List SEvent}
    {d : Bytes × Address} (h : processDatagram now acc d = .ok acc') :
    (PROTOCOL_HEADER.isPrefixOf d.1 = false ∧ acc' = acc) ∨
    (PROTOCOL_HEADER.isPrefixOf d.1 = true ∧
      ∃ st0 evs0,
        ((d.2 ∈ acc.1.clients ∧ st0 = acc.1 ∧ evs0 = acc.2) ∨
         (d.2 ∉ acc.1.clients ∧
           st0 = { acc.1 with clients := acc.1.clients ++ [d.2] } ∧
           evs0 = acc.2 ++ [.connect d.2])) ∧
        handleMessage now st0 evs0 d.2 (d.1.drop PROTOCOL_HEADER.length) = .ok acc') := by
  unfold processDatagram at h
  split at h
  · rename_i hpre
    split at h
    · rename_i hmem
      exact .inr ⟨hpre, acc.1, acc.2, .inl ⟨hmem, rfl, rfl⟩, h⟩
    · rename_i hmem
      exact .inr ⟨hpre, _, _, .inr ⟨hmem, rfl, rfl⟩, h⟩
  · rename_i hpre
    exact .inl ⟨Bool.of_not_eq_true hpre, (Except.ok.inj h).symm⟩

/-- The pending-acknowledgment set across one drain iteration: it never
grows, keeps every entry the datagram does not acknowledge, loses an entry
the datagram acknowledges (under no-duplicates), and stays duplicate-free. -/
lemma processDatagram_pending {now : ℚ} {acc acc' : ServerState × List SEvent}
    {d : Bytes × Address} (h : processDatagram now acc d = .ok acc') :
    (∀ x, x ∈ acc'.1.notAcknowledged → x ∈ acc.1.notAcknowledged) ∧
    (∀ x, x ∈ acc.1.notAcknowledged →
      ¬(d.2 = x.1 ∧ PROTOCOL_HEADER.isPrefixOf d.1 = true ∧
          loads (d.1.drop PROTOCOL_HEADER.length) = some (.ack x.2)) →
      x ∈ acc'.1.notAcknowledged) ∧
    (acc.1.notAcknowledged.Nodup → acc'.1.notAcknowledged.Nodup) ∧
    (∀ a o, acc.1.notAcknowledged.Nodup → d.2 = a →
      PROTOCOL_HEADER.isPrefixOf d.1 = true →
      loads (d.1.drop PROTOCOL_HEADER.length) = some (.ack o) →
      (a, o) ∉ acc'.1.notAcknowledged) := by
  rcases processDatagram_cases h with ⟨hpre, rfl⟩ | ⟨hpre, st0, evs0, hst0, hmsg⟩
  · refine ⟨fun x hx => hx, fun x hx _ => hx, fun hn => hn, ?_⟩
    intro a o _ _ hpre' _
    rw [hpre] at hpre'
    cases hpre'
  · have hpend0 : st0.notAcknowledged = acc.1.notAcknowledged := by
      rcases hst0 with ⟨_, rfl, _⟩ | ⟨_, rfl, _⟩ <;> rfl
    rcases handleMessage_cases hmsg with ⟨res, hl, hcase⟩
    rcases hcase with ⟨o, rfl, hst', _⟩ | ⟨hne, hst', _⟩
    · have hpend' : acc'.1.notAcknowledged = delS (d.2, o) acc.1.notAcknowledged := by
        rw [hst']
        show delS (d.2, o) st0.notAcknowledged = _
        rw [hpend0]
      refine ⟨?_, ?_, ?_, ?_⟩
      · intro x hx
        rw [hpend'] at hx
        exact delS_sub hx
      · intro x hx hnot
        rw [hpend']
        rcases eq_or_ne x (d.2, o) with hxx | hxx
        · exact absurd ⟨by rw [hxx], hpre, by rw [hxx]; exact hl⟩ hnot
        · exact mem_delS_of_ne hxx hx
      · intro hn
        rw [hpend']
        exact delS_nodup hn
      · intro a o' hn ha hpre' hl'
        rw [hl] at hl'
        have ho : o' = o := (Obj.ack.inj (Option.some.inj hl')).symm
        rw [hpend', ho, ← ha]
        exact not_mem_delS hn
    · have hpend' : acc'.1.notAcknowledged = acc.1.notAcknowledged := by
        rw [hst']
        simpa using hpend0
      refine ⟨?_, ?_, ?_, ?_⟩
      · intro x hx
        rw [hpend'] at hx
        exact hx
      · intro x hx _
        rw [hpend']
        exact hx
      · intro hn
        rw [hpend']
        exact hn
      · intro a o' _ _ _ hl'
        rw [hl] at hl'
        exact absurd (Option.some.inj hl') (hne o')

/-- Drain iterations only append connect and handle events (in particular
never a send and never a disconnect). -/
lemma processDatagram_events {now : ℚ} {acc acc' : ServerState × List SEvent}
    {d : Bytes × Address} (h : processDatagram now acc d = .ok acc') :
    ∃ extra, acc'.2 = acc.2 ++ extra ∧
      ∀ e ∈ extra, (∃ b, e = SEvent.connect b) ∨ ∃ b obj, e = SEvent.handle b obj := by
  rcases processDatagram_cases h with ⟨_, rfl⟩ | ⟨_, st0, evs0, hst0, hmsg⟩
  · exact ⟨[], by simp, by simp⟩
  · rcases handleMessage_cases hmsg with ⟨res, _, hcase⟩
    have hev0 : ∃ pre, evs0 = acc.2 ++ pre ∧
        ∀ e ∈ pre, (∃ b, e = SEvent.connect b) ∨ ∃ b obj, e = SEvent.handle b obj := by
      rcases hst0 with ⟨_, _, rfl⟩ | ⟨_, _, rfl⟩
      · exact ⟨[], by simp, by simp⟩
      · refine ⟨[.connect d.2], rfl, ?_⟩
        intro e he
        rcases List.mem_singleton.mp he with rfl
        exact .inl ⟨d.2, rfl⟩
    rcases hev0 with ⟨pre, hpre0, hkind⟩
    rcases hcase with ⟨o, rfl, _, hev⟩ | ⟨_, _, hev⟩
    · exact ⟨pre, hev ▸ hpre0, hkind⟩
    · refine ⟨pre ++ [.handle d.2 res], by rw [hev, hpre0, List.append_assoc], ?_⟩
      intro e hmem
      rcases List.mem_append.mp hmem with hm | hm
      · exact hkind e hm
      · rcases List.mem_singleton.mp hm with rfl
        exact .inr ⟨d.2, res, rfl⟩

/-- The pending set across the whole drain: never grows; keeps entries no
drained datagram acknowledges; under no-duplicates, an entry some drained
datagram acknowledges is gone afterwards; no-duplicates is preserved. -/
lemma handleMessages_pending {now : ℚ} {inbound : List (Bytes × Address)}
    {acc acc' : ServerState × List SEvent}
    (h : handleMessages now acc inbound = .ok acc') :
    (∀ x, x ∈ acc'.1.notAcknowledged → x ∈ acc.1.notAcknowledged) ∧
    (∀ x, x ∈ acc.1.notAcknowledged → ¬ acksFor inbound x.1 x.2 →
      x ∈ acc'.1.notAcknowledged) ∧
    (acc.1.notAcknowledged.Nodup → acc'.1.notAcknowledged.Nodup) ∧
    (∀ a o, acc.1.notAcknowledged.Nodup → acksFor inbound a o →
      (a, o) ∉ acc'.1.notAcknowledged) := by
  induction inbound generalizing acc with
  | nil =>
    cases Except.ok.inj h
    refine ⟨fun x hx => hx, fun x hx _ => hx, fun hn => hn, ?_⟩
    intro a o _ hac
    rcases hac with ⟨d, hd, _⟩
    exact absurd hd (List.not_mem_nil d)
  | cons d rest ih =>
    rw [handleMessages] at h
    rcases hpd : processDatagram now acc d with e | acc1
    · rw [hpd] at h
      cases h
    · rw [hpd] at h
      obtain ⟨hsub1, hkeep1, hnd1, hrem1⟩ := processDatagram_pending hpd
      obtain ⟨hsub2, hkeep2, hnd2, hrem2⟩ := ih h
      refine ⟨fun x hx => hsub1 x (hsub2 x hx), ?_, fun hn => hnd2 (hnd1 hn), ?_⟩
      · intro x hx hnoack
        refine hkeep2 x (hkeep1 x hx ?_) ?_
        · intro ⟨ha, hpre, hl⟩
          exact hnoack ⟨d, List.mem_cons_self _ _, ha, hpre, hl⟩
        · intro ⟨d', hd', hrest⟩
          exact hnoack ⟨d', List.mem_cons_of_mem _ hd', hrest⟩
      · intro a o hn hac
        rcases hac with ⟨d', hd', ha, hpre, hl⟩
        rcases List.mem_cons.mp hd' with rfl | hd'rest
        · intro hc
          exact hrem1 a o hn ha hpre hl (hsub2 _ hc)
        · exact hrem2 a o (hnd1 hn) ⟨d', hd'rest, ha, hpre, hl⟩

/-- The whole drain only appends connect and handle events. -/
lemma handleMessages_events {now : ℚ} {inbound : List (Bytes × Address)}
    {acc acc' : ServerState × List SEvent}
    (h : handleMessages now acc inbound = .ok acc') :
    ∃ extra, acc'.2 = acc.2 ++ extra ∧
      ∀ e ∈ extra, (∃ b, e = SEvent.connect b) ∨ ∃ b obj, e = SEvent.handle b obj := by
  induction inbound generalizing acc with
  | nil =>
    cases Except.ok.inj h
    exact ⟨[], by simp, by simp⟩
  | cons d rest ih =>
    rw [handleMessages] at h
    rcases hpd : processDatagram now acc d with e | acc1
    · rw [hpd] at h
      cases h
    · rw [hpd] at h
      obtain ⟨e1, he1, hn1⟩ := processDatagram_events hpd
      obtain ⟨e2, he2, hn2⟩ := ih h
      refine ⟨e1 ++ e2, by rw [he2, he1, List.append_assoc], ?_⟩
      intro e hmem
      rcases List.mem_append.mp hmem with hm | hm
      · exact hn1 e hm
      · exact hn2 e hm

/-- The disconnect scan leaves the pending set and the timeout constant
untouched, and appends only disconnect events. -/
lemma scanGo_pending_events {now : ℚ} {l : List (Address × ℚ)}
    {acc : ServerState × List SEvent} :
    (scanGo now acc l).1.notAcknowledged = acc.1.notAcknowledged ∧
    (scanGo now acc l).1.clientTimeout = acc.1.clientTimeout ∧
    ∃ extra, (scanGo now acc l).2 = acc.2 ++ extra ∧
      ∀ b o, SEvent.send b o ∉ extra := by
  induction l generalizing acc with
  | nil => exact ⟨rfl, rfl, [], by simp [scanGo], by simp⟩
  | cons p rest ih =>
    rw [scanGo]
    split
    · obtain ⟨h1, h2, extra, he, hn⟩ :=
        @ih (handleDisconnect acc.1 acc.2 p.1)
      refine ⟨h1, h2, .disconnect p.1 :: extra, ?_, ?_⟩
      · rw [he]
        simp [handleDisconnect]
      · intro b o hm
        rcases List.mem_cons.mp hm with hm | hm
        · cases hm
        · exact hn b o hm
    · exact ih

/-- Specification of a successful `serverStep` as used by the reliability
claim: the final pending set is the drained one, and the step's send events
are exactly one resend per final pending entry. -/
lemma serverStep_spec {now : ℚ} {st : ServerState}
    {inbound : List (Bytes × Address)} {st' : ServerState} {evs : List SEvent}
    (h : serverStep now st inbound = .ok (st', evs)) :
    ∃ acc1, handleMessages now (st, []) inbound = .ok acc1 ∧
      st'.notAcknowledged = acc1.1.notAcknowledged ∧
      (∀ b o, SEvent.send b o ∈ evs ↔ (b, o) ∈ st'.notAcknowledged) := by
  unfold serverStep at h
  rcases hdm : handleMessages now (st, []) inbound with e | acc1
  · rw [hdm] at h
    cases h
  · rw [hdm] at h
    obtain ⟨hpend, _, extra, hev, hnosend⟩ :=
      @scanGo_pending_events now acc1.1.timeouts acc1
    obtain ⟨hst', hevs⟩ := Prod.mk.inj (Except.ok.inj h)
    obtain ⟨dextra, hde, hdn⟩ := handleMessages_events hdm
    have hpend' : st'.notAcknowledged = acc1.1.notAcknowledged := by
      rw [← hst']
      exact hpend
    refine ⟨acc1, rfl, hpend', ?_⟩
    intro b o
    rw [← hevs]
    show SEvent.send b o ∈ (checkDisconnects now acc1).2 ++
      (checkDisconnects now acc1).1.notAcknowledged.map
        (fun p => SEvent.send p.1 p.2) ↔ _
    constructor
    · intro hm
      rcases List.mem_append.mp hm with hm | hm
      · have hm' : SEvent.send b o ∈ (scanGo now acc1 acc1.1.timeouts).2 := hm
        rw [hev] at hm'
        rcases List.mem_append.mp hm' with hm2 | hm2
        · rw [hde] at hm2
          rcases List.mem_append.mp hm2 with hm3 | hm3
          · simp at hm3
          · rcases hdn _ hm3 with ⟨b', hb⟩ | ⟨b', o', hb⟩ <;> cases hb
        · exact absurd hm2 (hnosend b o)
      · rcases List.mem_map.mp hm with ⟨p, hp, hpe⟩
        obtain ⟨h1, h2⟩ := SEvent.send.inj hpe.symm
        have hp' : p ∈ acc1.1.notAcknowledged := by
          rw [← hpend]
          exact hp
        rw [hpend', h1, h2]
        exact hp'
    · intro hm
      refine List.mem_append.mpr (.inr (List.mem_map.mpr ⟨(b, o), ?_, rfl⟩))
      show (b, o) ∈ (scanGo now acc1 acc1.1.timeouts).1.notAcknowledged
      rw [hpend, ← hpend']
      exact hm

/-- **C2.**  Reliability: (i) a pending `(peer, payload)` entry that no
drained datagram of this `step()` acknowledges is resent by this step and
stays pending; (ii) once a step drains an `Acknowledge` naming it, it is no
longer pending after that step and that step no longer resends it; (iii) an
entry that is not pending is never resent nor recreated by any sequence of
later steps; (iv) an `Acknowledge` with no matching pending entry is
consumed without error and leaves the pending set unchanged. -/
theorem reliability_retransmit_until_ack :
    (∀ now st inbound st' evs a o,
      serverStep now st inbound = .ok (st', evs) →
      (a, o) ∈ st.notAcknowledged → ¬ acksFor inbound a o →
      SEvent.send a o ∈ evs ∧ (a, o) ∈ st'.notAcknowledged) ∧
    (∀ now st inbound st' evs a o,
      st.notAcknowledged.Nodup →
      serverStep now st inbound = .ok (st', evs) → acksFor inbound a o →
      (a, o) ∉ st'.notAcknowledged ∧ SEvent.send a o ∉ evs) ∧
    (∀ st ops st' evs a o,
      (a, o) ∉ st.notAcknowledged → stepTrace st ops = .ok (st', evs) →
      (a, o) ∉ st'.notAcknowledged ∧ SEvent.send a o ∉ evs) ∧
    (∀ now st evs0 a o data, loads data = some (.ack o) →
      (a, o) ∉ st.notAcknowledged →
      handleMessage now st evs0 a data =
        .ok ({ st with timeouts := setA a now st.timeouts }, evs0)) := by
  refine ⟨?_, ?_, ?_, ?_⟩
  · intro now st inbound st' evs a o hstep hmem hnoack
    obtain ⟨acc1, hdm, hpend', hiff⟩ := serverStep_spec hstep
    obtain ⟨_, hkeep, _, _⟩ := handleMessages_pending hdm
    have h1 : (a, o) ∈ acc1.1.notAcknowledged := hkeep (a, o) hmem hnoack
    have h2 : (a, o) ∈ st'.notAcknowledged := by
      rw [hpend']
      exact h1
    exact ⟨(hiff a o).mpr h2, h2⟩
  · intro now st inbound st' evs a o hn hstep hack
    obtain ⟨acc1, hdm, hpend', hiff⟩ := serverStep_spec hstep
    obtain ⟨_, _, _, hrem⟩ := handleMessages_pending hdm
    have h1 : (a, o) ∉ acc1.1.notAcknowledged := hrem a o hn hack
    have h2 : (a, o) ∉ st'.notAcknowledged := by
      rw [hpend']
      exact h1
    exact ⟨h2, fun hc => h2 ((hiff a o).mp hc)⟩
  · intro st ops
    induction ops generalizing st with
    | nil =>
      intro st' evs a o hnot h
      rw [stepTrace] at h
      obtain ⟨h1, h2⟩ := Prod.mk.inj (Except.ok.inj h)
      rw [← h1, ← h2]
      exact ⟨hnot, by simp⟩
    | cons op rest ih =>
      obtain ⟨now, inbound⟩ := op
      intro st' evs a o hnot h
      rw [stepTrace] at h
      rcases hs : serverStep now st inbound with e | acc1
      · rw [hs] at h
        cases h
      · obtain ⟨st1, evs1⟩ := acc1
        rw [hs] at h
        have h' : (stepTrace st1 rest).map (fun r => (r.1, evs1 ++ r.2)) =
            .ok (st', evs) := h
        rcases ht : stepTrace st1 rest with e | r
        · rw [ht] at h'
          cases h'
        · rw [ht] at h'
          simp only [Except.map] at h'
          obtain ⟨h1, h2⟩ := Prod.mk.inj (Except.ok.inj h')
          obtain ⟨accd, hdm, hpend', hiff⟩ := serverStep_spec hs
          obtain ⟨hsub, _, _, _⟩ := handleMessages_pending hdm
          have hnot1 : (a, o) ∉ st1.notAcknowledged := by
            rw [hpend']
            exact fun hc => hnot (hsub (a, o) hc)
          obtain ⟨ih1, ih2⟩ := ih st1 r.1 r.2 a o hnot1 (by rw [ht])
          rw [← h1, ← h2]
          refine ⟨ih1, fun hc => ?_⟩
          rcases List.mem_append.mp hc with hm | hm
          · exact hnot1 ((hiff a o).mp hm)
          · exact ih2 hm
  · intro now st evs0 a o data hl hmem
    have hd : delS (a, o) st.notAcknowledged = st.notAcknowledged :=
      delS_of_not_mem hmem
    simp only [handleMessage, hl]
    rw [hd]

/-- A server with one pending unacknowledged `SetIdCommand` for peer `(1,2)`. -/
def stPend : ServerState :=
  { clients := [(1, 2)], notAcknowledged := [((1, 2), .cmd (.setId 5))] }

/-- The pending payload of `stPend`. -/
def ackedObj : Obj := .cmd (.setId 5)

/-- The wire bytes of `Acknowledge(SetIdCommand(5))`. -/
def ackBytes : Bytes := PROTOCOL_HEADER ++ [7, 0, 5, 255]

/-- `stPend` right after draining that acknowledgment at time 0. -/
def stAfterAck : ServerState :=
  { clients := [(1, 2)], timeouts := [((1, 2), 0)], notAcknowledged := [] }

/-- Witness for C2 at concrete inputs: a step with no inbound traffic
resends the pending entry and keeps it; a step draining the matching
acknowledgment drops it and does not resend; from a state with no pending
entry a later step never resends; an unmatched acknowledgment is consumed
without error. -/
theorem reliability_retransmit_until_ack_witness :
    (SEvent.send (1, 2) ackedObj ∈ [SEvent.send (1, 2) ackedObj] ∧
      ((1, 2), ackedObj) ∈ stPend.notAcknowledged) ∧
    (((1, 2), ackedObj) ∉ stAfterAck.notAcknowledged ∧
      SEvent.send (1, 2) ackedObj ∉ ([] : List SEvent)) ∧
    (((1, 2), ackedObj) ∉ ({} : ServerState).notAcknowledged ∧
      SEvent.send (1, 2) ackedObj ∉ ([] : List SEvent)) ∧
    handleMessage 0 {} [] (1, 2) [7, 0, 5, 255] =
      .ok ({ ({} : ServerState) with
               timeouts := setA (1, 2) 0 ({} : ServerState).timeouts }, []) := by
  refine ⟨?_, ?_, ?_, ?_⟩
  · exact reliability_retransmit_until_ack.1 0 stPend [] stPend
      [.send (1, 2) ackedObj] (1, 2) ackedObj (by rfl) (by decide)
      (by simp [acksFor])
  · have hscan : checkDisconnects 0 (stAfterAck, ([] : List SEvent)) =
        (stAfterAck, []) := by
      show scanGo 0 (stAfterAck, []) stAfterAck.timeouts = _
      rw [show stAfterAck.timeouts = [((1, 2), 0)] from rfl, scanGo,
          if_neg (by norm_num [stAfterAck]), scanGo]
    have hstep : serverStep 0 stPend [(ackBytes, (1, 2))] =
        .ok (stAfterAck, []) := by
      unfold serverStep
      rw [show handleMessages 0 ((stPend, []) : ServerState × List SEvent)
            [(ackBytes, (1, 2))] = .ok ((stAfterAck, []) : ServerState × List SEvent)
          from rfl]
      simp only [Except.map]
      rw [hscan]
      rfl
    exact reliability_retransmit_until_ack.2.1 0 stPend [(ackBytes, (1, 2))]
      stAfterAck [] (1, 2) ackedObj (by decide) hstep
      ⟨(ackBytes, (1, 2)), by simp, rfl, by decide, by rfl⟩
  · exact reliability_retransmit_until_ack.2.2.1 {} [(0, [])] {} [] (1, 2)
      ackedObj (by simp) (by rfl)
  · exact reliability_retransmit_until_ack.2.2.2 0 {} [] (1, 2) ackedObj
      [7, 0, 5, 255] (by rfl) (by simp)

/-! ## Association-list lemmas, toward claim C3 -/

section AssocLemmas

variable {κ α : Type} [DecidableEq κ]

lemma findA_setA_ne {k k' : κ} {v : α} {l : List (κ × α)} (h : k' ≠ k) :
    findA k' (setA k v l) = findA k' l := by
  induction l with
  | nil =>
    show (if k = k' then some v else findA k' ([] : List (κ × α))) = findA k' []
    rw [if_neg (fun hc : k = k' => h hc.symm)]
  | cons p rest ih =>
    obtain ⟨pk, pv⟩ := p
    rw [setA]
    split
    · rename_i hpk
      subst hpk
      show (if pk = k' then some v else findA k' rest) =
        (if pk = k' then some pv else findA k' rest)
      rw [if_neg (fun hc : pk = k' => h hc.symm),
          if_neg (fun hc : pk = k' => h hc.symm)]
    · show (if pk = k' then some pv else findA k' (setA k v rest)) =
        (if pk = k' then some pv else findA k' rest)
      by_cases hpk' : pk = k'
      · rw [if_pos hpk', if_pos hpk']
      · rw [if_neg hpk', if_neg hpk', ih]

lemma mem_keysA_setA {k k'' : κ} {v : α} {l : List (κ × α)} :
    k'' ∈ keysA (setA k v l) ↔ k'' ∈ keysA l ∨ k'' = k := by
  induction l with
  | nil => simp [setA, keysA]
  | cons p rest ih =>
    obtain ⟨pk, pv⟩ := p
    rw [setA]
    split
    · rename_i hpk
      subst hpk
      simp only [keysA, List.map_cons, List.mem_cons]
      constructor
      · intro hc
        exact .inl hc
      · intro hc
        rcases hc with hc | hc
        · exact hc
        · exact .inl hc
    · simp only [keysA, List.map_cons, List.mem_cons] at ih ⊢
      constructor
      · intro hc
        rcases hc with hc | hc
        · exact .inl (.inl hc)
        · rcases ih.mp hc with hm | hm
          · exact .inl (.inr hm)
          · exact .inr hm
      · intro hc
        rcases hc with (hc | hc) | hc
        · exact .inl hc
        · exact .inr (ih.mpr (.inl hc))
        · exact .inr (ih.mpr (.inr hc))

lemma keysA_setA_nodup {k : κ} {v : α} {l : List (κ × α)}
    (h : (keysA l).Nodup) : (keysA (setA k v l)).Nodup := by
  induction l with
  | nil => simp [setA, keysA]
  | cons p rest ih =>
    obtain ⟨pk, pv⟩ := p
    simp only [keysA, List.map_cons, List.nodup_cons] at h
    rw [setA]
    split
    · rename_i hpk
      subst hpk
      simp only [keysA, List.map_cons, List.nodup_cons]
      exact h
    · rename_i hpk
      simp only [keysA, List.map_cons, List.nodup_cons]
      refine ⟨?_, ih h.2⟩
      intro hc
      rcases mem_keysA_setA.mp (show pk ∈ keysA (setA k v rest) from hc) with hm | hm
      · exact h.1 hm
      · exact hpk hm

lemma findA_eraseA_ne {k k' : κ} {l : List (κ × α)} (h : k' ≠ k) :
    findA k' (eraseA k l) = findA k' l := by
  induction l with
  | nil => rfl
  | cons p rest ih =>
    obtain ⟨pk, pv⟩ := p
    rw [eraseA]
    split
    · rename_i hpk
      subst hpk
      show findA k' rest = if pk = k' then some pv else findA k' rest
      rw [if_neg (fun hc : pk = k' => h hc.symm)]
    · show (if pk = k' then some pv else findA k' (eraseA k rest)) =
        (if pk = k' then some pv else findA k' rest)
      by_cases hpk' : pk = k'
      · rw [if_pos hpk', if_pos hpk']
      · rw [if_neg hpk', if_neg hpk', ih]

lemma findA_none_of_not_mem_keysA {k : κ} {l : List (κ × α)}
    (h : k ∉ keysA l) : findA k l = none := by
  induction l with
  | nil => rfl
  | cons p rest ih =>
    obtain ⟨pk, pv⟩ := p
    simp only [keysA, List.map_cons, List.mem_cons] at h
    rw [findA, if_neg (fun hc : pk = k => h (.inl hc.symm))]
    exact ih (fun hc => h (.inr hc))

lemma findA_eraseA_self {k : κ} {l : List (κ × α)}
    (h : (keysA l).Nodup) : findA k (eraseA k l) = none := by
  induction l with
  | nil => rfl
  | cons p rest ih =>
    obtain ⟨pk, pv⟩ := p
    simp only [keysA, List.map_cons, List.nodup_cons] at h
    rw [eraseA]
    split
    · rename_i hpk
      subst hpk
      exact findA_none_of_not_mem_keysA h.1
    · rename_i hpk
      rw [findA, if_neg hpk]
      exact ih h.2

lemma keysA_eraseA_sublist {k : κ} {l : List (κ × α)} :
    (keysA (eraseA k l)).Sublist (keysA l) := by
  induction l with
  | nil => simp [eraseA, keysA]
  | cons p rest ih =>
    obtain ⟨pk, pv⟩ := p
    rw [eraseA]
    split
    · exact List.sublist_cons_self _ _
    · simp only [keysA, List.map_cons]
      exact List.Sublist.cons₂ _ ih

lemma keysA_eraseA_nodup {k : κ} {l : List (κ × α)}
    (h : (keysA l).Nodup) : (keysA (eraseA k l)).Nodup :=
  h.sublist keysA_eraseA_sublist

lemma exists_split_of_findA {k : κ} {v : α} {l : List (κ × α)}
    (h : findA k l = some v) :
    ∃ l1 l2, l = l1 ++ (k, v) :: l2 ∧ ∀ p ∈ l1, p.1 ≠ k := by
  induction l with
  | nil => cases h
  | cons p rest ih =>
    obtain ⟨pk, pv⟩ := p
    rw [findA] at h
    split at h
    · rename_i hpk
      cases Option.some.inj h
      exact ⟨[], rest, by rw [hpk, List.nil_append], by simp⟩
    · rename_i hpk
      obtain ⟨l1, l2, hsplit, hno⟩ := ih h
      refine ⟨(pk, pv) :: l1, l2, by rw [hsplit, List.cons_append], ?_⟩
      intro q hq
      rcases List.mem_cons.mp hq with rfl | hq
      · exact hpk
      · exact hno q hq

end AssocLemmas

lemma nodup_append_singleton {β : Type} {l : List β} {b : β}
    (h : l.Nodup) (hb : b ∉ l) : (l ++ [b]).Nodup := by
  induction l with
  | nil => simp
  | cons x xs ih =>
    rcases List.nodup_cons.mp h with ⟨hx, hnd⟩
    rw [List.cons_append]
    refine List.nodup_cons.mpr ⟨?_, ih hnd (fun hc => hb (List.mem_cons_of_mem _ hc))⟩
    intro hc
    rcases List.mem_append.mp hc with hm | hm
    · exact hx hm
    · rcases List.mem_singleton.mp hm with rfl
      exact hb (List.mem_cons_self _ _)

lemma isPrefixOf_append_self : ∀ (l r : List Nat), l.isPrefixOf (l ++ r) = true
  | [], _ => by simp [List.isPrefixOf]
  | a :: as, r => by
    rw [List.cons_append, List.isPrefixOf]
    simp [isPrefixOf_append_self as r]

/-- A drained datagram from some other address leaves this peer's
last-activity entry, registry membership, the timeout constant and the
no-duplicate invariants untouched. -/
lemma processDatagram_other {now : ℚ} {acc acc' : ServerState × List SEvent}
    {d : Bytes × Address} {a : Address}
    (h : processDatagram now acc d = .ok acc') (hne : d.2 ≠ a) :
    findA a acc'.1.timeouts = findA a acc.1.timeouts ∧
    (a ∈ acc'.1.clients ↔ a ∈ acc.1.clients) ∧
    acc'.1.clientTimeout = acc.1.clientTimeout ∧
    (acc.1.clients.Nodup → acc'.1.clients.Nodup) ∧
    ((keysA acc.1.timeouts).Nodup → (keysA acc'.1.timeouts).Nodup) := by
  rcases processDatagram_cases h with ⟨_, rfl⟩ | ⟨_, st0, evs0, hst0, hmsg⟩
  · exact ⟨rfl, Iff.rfl, rfl, fun hn => hn, fun hn => hn⟩
  · have hcl : st0.clients = acc.1.clients ∨
        (d.2 ∉ acc.1.clients ∧ st0.clients = acc.1.clients ++ [d.2]) := by
      rcases hst0 with ⟨_, rfl, _⟩ | ⟨hmem, rfl, _⟩
      · exact .inl rfl
      · exact .inr ⟨hmem, rfl⟩
    have hti : st0.timeouts = acc.1.timeouts := by
      rcases hst0 with ⟨_, rfl, _⟩ | ⟨_, rfl, _⟩ <;> rfl
    have hcti : st0.clientTimeout = acc.1.clientTimeout := by
      rcases hst0 with ⟨_, rfl, _⟩ | ⟨_, rfl, _⟩ <;> rfl
    have hstate : acc'.1.timeouts = setA d.2 now st0.timeouts ∧
        acc'.1.clients = st0.clients ∧ acc'.1.clientTimeout = st0.clientTimeout := by
      rcases handleMessage_cases hmsg with ⟨res, _, ⟨o, rfl, hst', _⟩ | ⟨_, hst', _⟩⟩ <;>
        rw [hst'] <;> exact ⟨rfl, rfl, rfl⟩
    obtain ⟨ht', hc', hct'⟩ := hstate
    refine ⟨?_, ?_, by rw [hct', hcti], ?_, ?_⟩
    · rw [ht', hti]
      exact findA_setA_ne (fun hc => hne hc.symm)
    · rw [hc']
      rcases hcl with hcl | ⟨_, hcl⟩
      · rw [hcl]
      · rw [hcl]
        constructor
        · intro hc
          rcases List.mem_append.mp hc with hm | hm
          · exact hm
          · exact absurd (List.mem_singleton.mp hm) (fun hx => hne hx.symm)
        · intro hc
          exact List.mem_append.mpr (.inl hc)
    · intro hn
      rw [hc']
      rcases hcl with hcl | ⟨hmem, hcl⟩
      · rw [hcl]
        exact hn
      · rw [hcl]
        exact nodup_append_singleton hn hmem
    · intro hn
      rw [ht', hti]
      exact keysA_setA_nodup hn

/-- The same, across the whole drain. -/
lemma handleMessages_other {now : ℚ} {inbound : List (Bytes × Address)}
    {acc acc' : ServerState × List SEvent} {a : Address}
    (h : handleMessages now acc inbound = .ok acc')
    (hno : ∀ d ∈ inbound, d.2 ≠ a) :
    findA a acc'.1.timeouts = findA a acc.1.timeouts ∧
    (a ∈ acc'.1.clients ↔ a ∈ acc.1.clients) ∧
    acc'.1.clientTimeout = acc.1.clientTimeout ∧
    (acc.1.clients.Nodup → acc'.1.clients.Nodup) ∧
    ((keysA acc.1.timeouts).Nodup → (keysA acc'.1.timeouts).Nodup) := by
  induction inbound generalizing acc with
  | nil =>
    cases Except.ok.inj h
    exact ⟨rfl, Iff.rfl, rfl, fun hn => hn, fun hn => hn⟩
  | cons d rest ih =>
    rw [handleMessages] at h
    rcases hpd : processDatagram now acc d with e | acc1
    · rw [hpd] at h
      cases h
    · rw [hpd] at h
      obtain ⟨f1, f2, f3, f4, f5⟩ :=
        processDatagram_other hpd (hno d (List.mem_cons_self _ _))
      obtain ⟨g1, g2, g3, g4, g5⟩ :=
        ih h (fun d' hd' => hno d' (List.mem_cons_of_mem _ hd'))
      exact ⟨by rw [g1, f1], g2.trans f2, by rw [g3, f3],
        fun hn => g4 (f4 hn), fun hn => g5 (f5 hn)⟩

lemma scanGo_append {now : ℚ} {acc : ServerState × List SEvent}
    {l1 l2 : List (Address × ℚ)} :
    scanGo now acc (l1 ++ l2) = scanGo now (scanGo now acc l1) l2 := by
  induction l1 generalizing acc with
  | nil => rfl
  | cons p rest ih =>
    rw [List.cons_append, scanGo, scanGo]
    exact ih

/-- The disconnect scan over snapshot entries that never fire for peer `a`
(either another key, or not expired) preserves everything about `a`. -/
lemma scanGo_keep {now : ℚ} {l : List (Address × ℚ)}
    {acc : ServerState × List SEvent} {a : Address}
    (hno : ∀ p ∈ l, p.1 = a → ¬(now - p.2 > acc.1.clientTimeout)) :
    (scanGo now acc l).1.clientTimeout = acc.1.clientTimeout ∧
    (a ∈ acc.1.clients → a ∈ (scanGo now acc l).1.clients) ∧
    (a ∉ acc.1.clients → a ∉ (scanGo now acc l).1.clients) ∧
    findA a (scanGo now acc l).1.timeouts = findA a acc.1.timeouts ∧
    ((keysA acc.1.timeouts).Nodup → (keysA (scanGo now acc l).1.timeouts).Nodup) ∧
    (acc.1.clients.Nodup → (scanGo now acc l).1.clients.Nodup) ∧
    (scanGo now acc l).2.count (SEvent.disconnect a) =
      acc.2.count (SEvent.disconnect a) := by
  induction l generalizing acc with
  | nil => exact ⟨rfl, fun hc => hc, fun hc => hc, rfl, fun hn => hn, fun hn => hn, rfl⟩
  | cons p rest ih =>
    rw [scanGo]
    split
    · rename_i hexp
      have hpa : p.1 ≠ a := by
        intro hc
        exact hno p (List.mem_cons_self _ _) hc hexp
      obtain ⟨i1, i2, i3, i4, i5, i6, i7⟩ :=
        @ih (handleDisconnect acc.1 acc.2 p.1)
          (fun q hq hqa => hno q (List.mem_cons_of_mem _ hq) hqa)
      refine ⟨i1, ?_, ?_, ?_, ?_, ?_, ?_⟩
      · intro hc
        exact i2 ((List.mem_erase_of_ne (fun hx => hpa hx.symm)).mpr hc)
      · intro hc
        exact i3 (fun hx => hc (List.mem_of_mem_erase hx))
      · rw [i4]
        exact findA_eraseA_ne (fun hx => hpa hx.symm)
      · intro hn
        exact i5 (keysA_eraseA_nodup hn)
      · intro hn
        exact i6 (hn.erase _)
      · rw [i7]
        show (acc.2 ++ [SEvent.disconnect p.1]).count (SEvent.disconnect a) = _
        rw [List.count_append]
        have : ([SEvent.disconnect p.1]).count (SEvent.disconnect a) = 0 := by
          rw [List.count_eq_zero]
          intro hc
          rcases List.mem_singleton.mp hc with hx
          exact hpa (SEvent.disconnect.inj hx).symm
        rw [this, Nat.add_zero]
    · exact @ih acc (fun q hq hqa => hno q (List.mem_cons_of_mem _ hq) hqa)

/-- Decomposition of a successful `serverStep` into its three phases. -/
lemma serverStep_decomp {now : ℚ} {st : ServerState}
    {inbound : List (Bytes × Address)} {st' : ServerState} {evs : List SEvent}
    (h : serverStep now st inbound = .ok (st', evs)) :
    ∃ acc1, handleMessages now (st, []) inbound = .ok acc1 ∧
      st' = (checkDisconnects now acc1).1 ∧
      evs = (checkDisconnects now acc1).2 ++
        (checkDisconnects now acc1).1.notAcknowledged.map
          (fun p => SEvent.send p.1 p.2) := by
  unfold serverStep at h
  rcases hdm : handleMessages now (st, []) inbound with e | acc1
  · rw [hdm] at h
    cases h
  · rw [hdm] at h
    obtain ⟨h1, h2⟩ := Prod.mk.inj (Except.ok.inj h)
    exact ⟨acc1, rfl, h1.symm, h2.symm⟩

lemma handleMessages_cons {now : ℚ} {acc : ServerState × List SEvent}
    {d : Bytes × Address} {rest : List (Bytes × Address)} :
    handleMessages now acc (d :: rest) =
      Except.bind (processDatagram now acc d)
        (fun acc' => handleMessages now acc' rest) := by
  rw [handleMessages]
  rcases processDatagram now acc d with e | acc'
  · rfl
  · rfl

/-- **C3.**  Idle-timeout lifecycle: (i) a registered peer whose
last-activity timestamp is older than the idle-timeout, and from which this
step drains no datagram, is removed by the step from the peer registry and
from the last-activity map, with exactly one disconnect hook invocation;
(ii) a datagram from an unregistered address (e.g. one already evicted)
runs the connect hook again. -/
theorem idle_timeout_disconnect_lifecycle :
    (∀ now st inbound st' evs a last,
      st.clients.Nodup → (keysA st.timeouts).Nodup →
      a ∈ st.clients → findA a st.timeouts = some last →
      now - last > st.clientTimeout →
      (∀ d ∈ inbound, d.2 ≠ a) →
      serverStep now st inbound = .ok (st', evs) →
      a ∉ st'.clients ∧ findA a st'.timeouts = none ∧
      evs.count (SEvent.disconnect a) = 1) ∧
    (∀ now st st' evs a data body,
      a ∉ st.clients → data = PROTOCOL_HEADER ++ body →
      serverStep now st [(data, a)] = .ok (st', evs) →
      SEvent.connect a ∈ evs) := by
  constructor
  · intro now st inbound st' evs a last hndc hndt hmemc hfind hexp hno hstep
    obtain ⟨acc1, hdm, hst', hevs⟩ := serverStep_decomp hstep
    obtain ⟨f1, f2, f3, f4, f5⟩ := handleMessages_other hdm hno
    have hfind1 : findA a acc1.1.timeouts = some last := by
      rw [f1]
      exact hfind
    have hmem1 : a ∈ acc1.1.clients := f2.mpr hmemc
    have hndc1 : acc1.1.clients.Nodup := f4 hndc
    have hndt1 : (keysA acc1.1.timeouts).Nodup := f5 hndt
    obtain ⟨l1, l2, hsplit, hno1⟩ := exists_split_of_findA hfind1
    have hno2 : ∀ p ∈ l2, p.1 ≠ a := by
      intro p hp hc
      have hmema : a ∈ keysA l2 := List.mem_map.mpr ⟨p, hp, hc⟩
      have hnd2 := hndt1
      rw [hsplit] at hnd2
      have : keysA (l1 ++ (a, last) :: l2) = keysA l1 ++ a :: keysA l2 := by
        simp [keysA]
      rw [this] at hnd2
      rcases List.nodup_append.mp hnd2 with ⟨_, hndr, _⟩
      exact (List.nodup_cons.mp hndr).1 hmema
    have hcnt0 : acc1.2.count (SEvent.disconnect a) = 0 := by
      obtain ⟨extra, he, hkind⟩ := handleMessages_events hdm
      rw [he, List.count_eq_zero]
      intro hc
      rcases hkind _ (by simpa using hc) with ⟨b, hb⟩ | ⟨b, obj, hb⟩ <;> cases hb
    obtain ⟨b1, b2, _, b4, b5, b6, b7⟩ :=
      @scanGo_keep now l1 acc1 a (fun p hp hpa => absurd hpa (hno1 p hp))
    have hcond : now - (a, last).2 > (scanGo now acc1 l1).1.clientTimeout := by
      rw [b1, f3]
      exact hexp
    have hmid : scanGo now (scanGo now acc1 l1) [(a, last)] =
        handleDisconnect (scanGo now acc1 l1).1 (scanGo now acc1 l1).2 a := by
      rw [scanGo, if_pos hcond, scanGo]
    have hcd : checkDisconnects now acc1 =
        scanGo now (handleDisconnect (scanGo now acc1 l1).1
          (scanGo now acc1 l1).2 a) l2 := by
      show scanGo now acc1 acc1.1.timeouts = _
      rw [hsplit,
          show l1 ++ (a, last) :: l2 = (l1 ++ [(a, last)]) ++ l2 by simp,
          scanGo_append, scanGo_append, hmid]
    have hCc : a ∉ (handleDisconnect (scanGo now acc1 l1).1
        (scanGo now acc1 l1).2 a).1.clients := by
      show a ∉ (scanGo now acc1 l1).1.clients.erase a
      exact (b6 hndc1).not_mem_erase
    have hCt : findA a (handleDisconnect (scanGo now acc1 l1).1
        (scanGo now acc1 l1).2 a).1.timeouts = none := by
      show findA a (eraseA a (scanGo now acc1 l1).1.timeouts) = none
      exact findA_eraseA_self (b5 hndt1)
    have hCcount : (handleDisconnect (scanGo now acc1 l1).1
        (scanGo now acc1 l1).2 a).2.count (SEvent.disconnect a) = 1 := by
      show ((scanGo now acc1 l1).2 ++ [SEvent.disconnect a]).count _ = 1
      rw [List.count_append, b7, hcnt0]
      simp
    obtain ⟨_, _, c3, c4, _, _, c7⟩ :=
      @scanGo_keep now l2 (handleDisconnect (scanGo now acc1 l1).1
        (scanGo now acc1 l1).2 a) a (fun p hp hpa => absurd hpa (hno2 p hp))
    refine ⟨?_, ?_, ?_⟩
    · rw [hst', hcd]
      exact c3 hCc
    · rw [hst', hcd, c4]
      exact hCt
    · rw [hevs, hcd, List.count_append, c7, hCcount]
      have hsends : ((scanGo now (handleDisconnect (scanGo now acc1 l1).1
          (scanGo now acc1 l1).2 a) l2).1.notAcknowledged.map
            (fun p => SEvent.send p.1 p.2)).count (SEvent.disconnect a) = 0 := by
        rw [List.count_eq_zero]
        intro hc
        rcases List.mem_map.mp hc with ⟨p, _, hp⟩
        cases hp
      rw [hsends]
  · intro now st st' evs a data body hmemc hdata hstep
    obtain ⟨acc1, hdm, hst', hevs⟩ := serverStep_decomp hstep
    rw [handleMessages_cons] at hdm
    rcases hpd : processDatagram now (st, []) (data, a) with e | accA
    · rw [hpd] at hdm
      cases hdm
    · rw [hpd] at hdm
      simp only [Except.bind] at hdm
      rw [handleMessages] at hdm
      have haccA : accA = acc1 := Except.ok.inj hdm
      rcases processDatagram_cases hpd with ⟨hpre, _⟩ | ⟨_, st0, evs0, hst0, hmsg⟩
      · rw [hdata, isPrefixOf_append_self] at hpre
        cases hpre
      · rcases hst0 with ⟨hmem, _, _⟩ | ⟨_, _, hevs0⟩
        · exact absurd hmem hmemc
        · have hconn : SEvent.connect a ∈ accA.2 := by
            rcases handleMessage_cases hmsg with
              ⟨res, _, ⟨o, _, _, hev'⟩ | ⟨_, _, hev'⟩⟩ <;>
              rw [hev', hevs0] <;> simp
          rw [haccA] at hconn
          obtain ⟨_, _, extra, hse, _⟩ := @scanGo_pending_events now acc1.1.timeouts acc1
          rw [hevs]
          refine List.mem_append.mpr (.inl ?_)
          show SEvent.connect a ∈ (scanGo now acc1 acc1.1.timeouts).2
          rw [hse]
          exact List.mem_append.mpr (.inl hconn)

/-- A server knowing one peer `(7,9)` last active at time 0. -/
def stIdle : ServerState := { clients := [(7, 9)], timeouts := [((7, 9), 0)] }

/-- The events of a step that drains one ping from a brand-new peer `(7,9)`. -/
def evsJoin : List SEvent := [SEvent.connect (7, 9), SEvent.handle (7, 9) .ping]

/-- Witness for C3 at concrete inputs: at time 3 (idle-timeout 2 exceeded)
a step with no inbound traffic evicts peer `(7,9)` with exactly one
disconnect event; a ping datagram from an unknown address runs the connect
hook. -/
theorem idle_timeout_disconnect_lifecycle_witness :
    ((7, 9) ∉ ({} : ServerState).clients ∧
      findA (7, 9) ({} : ServerState).timeouts = none ∧
      ([SEvent.disconnect (7, 9)]).count (SEvent.disconnect (7, 9)) = 1) ∧
    SEvent.connect (7, 9) ∈ evsJoin := by
  constructor
  · have hscan : checkDisconnects 3 ((stIdle, []) : ServerState × List SEvent) =
        (({} : ServerState), [SEvent.disconnect (7, 9)]) := by
      show scanGo 3 (stIdle, []) stIdle.timeouts = _
      rw [show stIdle.timeouts = [((7, 9), 0)] from rfl, scanGo,
          if_pos (show (3 : ℚ) - ((((7, 9) : Address), (0 : ℚ))).2 >
            ((stIdle, ([] : List SEvent))).1.clientTimeout by norm_num [stIdle]),
          scanGo]
      rfl
    have hstep : serverStep 3 stIdle [] =
        .ok (({} : ServerState), [SEvent.disconnect (7, 9)]) := by
      unfold serverStep
      rw [show handleMessages 3 ((stIdle, []) : ServerState × List SEvent) [] =
            .ok ((stIdle, []) : ServerState × List SEvent) from rfl]
      simp only [Except.map]
      rw [hscan]
      rfl
    exact idle_timeout_disconnect_lifecycle.1 3 stIdle [] {}
      [.disconnect (7, 9)] (7, 9) 0 (by decide) (by decide) (by decide)
      (by rfl) (by norm_num [stIdle]) (by simp) hstep
  · have hscan2 : checkDisconnects 0 ((stIdle, evsJoin) : ServerState × List SEvent) =
        (stIdle, evsJoin) := by
      show scanGo 0 (stIdle, evsJoin) stIdle.timeouts = _
      rw [show stIdle.timeouts = [((7, 9), 0)] from rfl, scanGo,
          if_neg (show ¬((0 : ℚ) - ((((7, 9) : Address), (0 : ℚ))).2 >
            ((stIdle, evsJoin)).1.clientTimeout) by norm_num [stIdle]),
          scanGo]
    have hstep2 : serverStep 0 {} [(PROTOCOL_HEADER ++ [6], (7, 9))] =
        .ok (stIdle, evsJoin) := by
      unfold serverStep
      rw [show handleMessages 0 ((({} : ServerState), []) : ServerState × List SEvent)
            [(PROTOCOL_HEADER ++ [6], (7, 9))] =
            .ok ((stIdle, evsJoin) : ServerState × List SEvent) from rfl]
      simp only [Except.map]
      rw [hscan2]
      rfl
    exact idle_timeout_disconnect_lifecycle.2 0 {} stIdle evsJoin (7, 9)
      (PROTOCOL_HEADER ++ [6]) [6] (by simp) rfl hstep2

/-! ## GameServer (`network.GameServer`)

The game-logic layer of the server.  The transport concerns (base-class
resend loop, pending acknowledgments, peer registry) are the abstract
`Server` model above; here the state is the authoritative world state plus
the per-peer id and pressed-key tables, and the observables are the
broadcast / unicast command objects.  The two `OnlyMostRecentCommand`
subclasses draw their construction-time sequence numbers from per-type
process-global counters, carried here in the state. -/

structure GameState where
  next_id : Nat := 1
  address_to_id : List (Address × Nat) := []
  pressed_keys : List (Nat × List Nat) := []
  scope : Scope := {}
  radiusCount : Nat := 0
  positionCount : Nat := 0
deriving DecidableEq, Repr

/-- The per-player body of `GameServer.update`'s loop over
`list(self.scope.players.items())`: update physics from the pressed keys
(`KeyError` if the id has no pressed-key entry), resolve collisions,
broadcast `SetPositionCommand`, and eliminate the player if it left the
arena.  The snapshot ids are processed against the current map (the Python
loop's `player` variable aliases the map entry); a snapshot id missing from
the current map cannot occur (no earlier iteration deletes a later player)
and is skipped, and the just-written entry is reread with the previous
value as an impossible fallback. -/
def gamePlayerStep (sqrt : ℚ → ℚ) (dt : ℚ) (id : Nat) (player : Player)
    (players : List (Nat × Player)) (keys : List Nat) (radius : ℚ)
    (pcnt : Nat) : List (Nat × Player) × Nat × List Obj :=
  let p1 := player.update sqrt keys dt
  let players2 := collisionPass sqrt id (setA id p1 players)
  let p2 := (findA id players2).getD p1
  let cmd := Obj.cmd (.setPosition pcnt id p2.position
    p2.last_acceleration p2.velocity)
  if sqrt p2.position.lsq > radius then
    (eraseA id players2, pcnt + 1, [cmd, Obj.cmd (.removePlayer id)])
  else (players2, pcnt + 1, [cmd])

def gamePlayersLoop (sqrt : ℚ → ℚ) (dt : ℚ) :
    List Nat → List (Nat × Player) → List (Nat × List Nat) → ℚ → Nat →
    Except Unit (List (Nat × Player) × Nat × List Obj)
  | [], players, _, _, pcnt => .ok (players, pcnt, [])
  | id :: rest, players, pressed, radius, pcnt =>
      match findA id players with
      | none => gamePlayersLoop sqrt dt rest players pressed radius pcnt
      | some player =>
          match findA id pressed with
          | none => .error ()
          | some keys =>
              Except.map
                (fun r => (r.1, r.2.1,
                  (gamePlayerStep sqrt dt id player players keys radius pcnt).2.2
                    ++ r.2.2))
                (gamePlayersLoop sqrt dt rest
                  (gamePlayerStep sqrt dt id player players keys radius pcnt).1
                  pressed radius
                  (gamePlayerStep sqrt dt id player players keys radius pcnt).2.1)

/-- `GameServer.update()` (the game part; the inherited resend loop is the
transport model's `serverResend`): shrink the arena if above the floor and
broadcast `SetRadiusCommand`, then run the per-player loop. -/
def gameUpdate (sqrt : ℚ → ℚ) (dt : ℚ) (st : GameState) :
    Except Unit (GameState × List Obj) :=
  let shrink := st.scope.circle_radius > 2
  let r1 := if shrink then st.scope.circle_radius - (2/5) * dt
            else st.scope.circle_radius
  let cnt1 := if shrink then st.radiusCount + 1 else st.radiusCount
  let cmds1 : List Obj := if shrink then [.cmd (.setRadius st.radiusCount r1)]
                          else []
  match gamePlayersLoop sqrt dt (keysA st.scope.players) st.scope.players
      st.pressed_keys r1 st.positionCount with
  | .ok (players', pcnt', cmds2) =>
      .ok ({ st with
               scope := { st.scope with circle_radius := r1, players := players' },
               radiusCount := cnt1, positionCount := pcnt' },
           cmds1 ++ cmds2)
  | .error e => .error e

/-- `GameServer.handle_connect(new_address)`: allocate the next id, create
the player and its empty pressed-key set, unicast `SetIdCommand`. -/
def gameHandleConnect (st : GameState) (address : Address) :
    GameState × List Obj :=
  let id := st.next_id
  ({ st with
       next_id := st.next_id + 1,
       address_to_id := setA address id st.address_to_id,
       scope := { st.scope with
                    players := setA id (Player.fresh id) st.scope.players },
       pressed_keys := setA id [] st.pressed_keys },
   [.cmd (.setId id)])

/-- `GameServer.handle_disconnect(address)`: look the id up (`KeyError` if
the address is unknown), delete the player and its pressed keys under one
`try/except KeyError` (so if the player is already gone the pressed keys
are left untouched), and broadcast `RemovePlayerCommand` either way. -/
def gameHandleDisconnect (st : GameState) (address : Address) :
    Except Unit (GameState × List Obj) :=
  match findA address st.address_to_id with
  | none => .error ()
  | some id =>
      match findA id st.scope.players with
      | some _ =>
          .ok ({ st with
                   scope := { st.scope with players := eraseA id st.scope.players },
                   pressed_keys := eraseA id st.pressed_keys },
               [.cmd (.removePlayer id)])
      | none => .ok (st, [.cmd (.removePlayer id)])

/-- `GameServer.handle(address, obj)`: key-down adds, key-up discards,
ping is a no-op, anything else raises. -/
def gameHandle (st : GameState) (address : Address) (obj : Obj) :
    Except Unit GameState :=
  match findA address st.address_to_id with
  | none => .error ()
  | some id =>
      match obj with
      | .keyDown k =>
          match findA id st.pressed_keys with
          | none => .error ()
          | some s => .ok { st with pressed_keys := setA id (addS k s) st.pressed_keys }
      | .keyUp k =>
          match findA id st.pressed_keys with
          | none => .error ()
          | some s => .ok { st with pressed_keys := setA id (delS k s) st.pressed_keys }
      | .ping => .ok st
      | _ => .error ()

/-- States of a `GameServer` reachable from construction through connects,
disconnects, input handling and update ticks (for any clock and any
square-root behaviour). -/
inductive GameReachable : GameState → Prop
  | init : GameReachable {}
  | connect (s : GameState) (a : Address) :
      GameReachable s → GameReachable (gameHandleConnect s a).1
  | disconnect (s : GameState) (a : Address) (s' : GameState) (cmds : List Obj) :
      GameReachable s → gameHandleDisconnect s a = .ok (s', cmds) →
      GameReachable s'
  | handle (s : GameState) (a : Address) (o : Obj) (s' : GameState) :
      GameReachable s → gameHandle s a o = .ok s' → GameReachable s'
  | update (s : GameState) (sqrt : ℚ → ℚ) (dt : ℚ) (s' : GameState)
      (cmds : List Obj) :
      GameReachable s → gameUpdate sqrt dt s = .ok (s', cmds) →
      GameReachable s'

/-- A tick sequence: run `gameUpdate` once per elapsed-time entry,
collecting each tick's broadcast commands. -/
def gameTicks (sqrt : ℚ → ℚ) (st : GameState) :
    List ℚ → Except Unit (GameState × List (List Obj))
  | [] => .ok (st, [])
  | dt :: rest =>
      match gameUpdate sqrt dt st with
      | .ok (st1, cmds) => (gameTicks sqrt st1 rest).map (fun r => (r.1, cmds :: r.2))
      | .error e => .error e

/-! ## Claim C9: the equal-mass collision scenario -/

/-- The first scenario player: id 1, mass 50, radius 0.25, at the origin,
moving right at 2 units/s. -/
def pA : Player :=
  { id := 1, mass := 50, radius := 1/4, position := ⟨0, 0⟩, velocity := ⟨2, 0⟩ }

/-- The second scenario player: id 2, mass 50, radius 0.25, 0.4 units along
the x-axis, moving left at 2 units/s. -/
def pB : Player :=
  { id := 2, mass := 50, radius := 1/4, position := ⟨2/5, 0⟩, velocity := ⟨-2, 0⟩ }

/-- **C9.**  Two players of equal mass 50 and radii 0.25, 0.4 apart on the
x-axis with velocities (+2,0) and (−2,0): the pass run by the player with
the smaller id changes nothing (only the larger id performs the exchange),
the pass run by the larger id swaps the two velocities in one step from
the pre-collision values, and so does running both passes in map order. -/
theorem collision_equal_mass_swap (sqrt : ℚ → ℚ) (hs : sqrt (4/25) = 2/5) :
    collisionPass sqrt 1 [(1, pA), (2, pB)] = [(1, pA), (2, pB)] ∧
    collisionPass sqrt 2 [(1, pA), (2, pB)] =
      [(1, { pA with velocity := ⟨-2, 0⟩ }), (2, { pB with velocity := ⟨2, 0⟩ })] ∧
    collisionPass sqrt 2 (collisionPass sqrt 1 [(1, pA), (2, pB)]) =
      [(1, { pA with velocity := ⟨-2, 0⟩ }), (2, { pB with velocity := ⟨2, 0⟩ })] := by
  have hkeys : keysA [(1, pA), (2, pB)] = [1, 2] := rfl
  have s11 : collideStep sqrt 1 [(1, pA), (2, pB)] 1 = [(1, pA), (2, pB)] := rfl
  have s12 : collideStep sqrt 1 [(1, pA), (2, pB)] 2 = [(1, pA), (2, pB)] := rfl
  have h1 : collisionPass sqrt 1 [(1, pA), (2, pB)] = [(1, pA), (2, pB)] := by
    unfold collisionPass
    rw [hkeys, List.foldl_cons, s11, List.foldl_cons, s12, List.foldl_nil]
  have hdist : (pB.position.sub pA.position).lsq = 4/25 := by
    norm_num [pA, pB, Vec.sub, Vec.lsq]
  have hcb : collideWith sqrt pB pA =
      ({ pB with velocity := ⟨2, 0⟩ }, { pA with velocity := ⟨-2, 0⟩ }) := by
    unfold collideWith
    rw [if_pos ⟨by decide, by rw [hdist, hs]; norm_num [pA, pB]⟩]
    simp only [pA, pB, Vec.smul, Vec.sub, Vec.add, Vec.sdiv]
    norm_num
  have s21 : collideStep sqrt 2 [(1, pA), (2, pB)] 1 =
      [(1, { pA with velocity := ⟨-2, 0⟩ }), (2, { pB with velocity := ⟨2, 0⟩ })] := by
    unfold collideStep
    rw [show findA 2 [(1, pA), (2, pB)] = some pB from rfl,
        show findA 1 [(1, pA), (2, pB)] = some pA from rfl]
    simp only []
    rw [if_neg (show ¬(2 = 1) by decide), hcb]
    rfl
  have s22 : collideStep sqrt 2
      [(1, { pA with velocity := ⟨-2, 0⟩ }), (2, { pB with velocity := ⟨2, 0⟩ })] 2 =
      [(1, { pA with velocity := ⟨-2, 0⟩ }), (2, { pB with velocity := ⟨2, 0⟩ })] := rfl
  have h2 : collisionPass sqrt 2 [(1, pA), (2, pB)] =
      [(1, { pA with velocity := ⟨-2, 0⟩ }), (2, { pB with velocity := ⟨2, 0⟩ })] := by
    unfold collisionPass
    rw [hkeys, List.foldl_cons, s21, List.foldl_cons, s22, List.foldl_nil]
  exact ⟨h1, h2, by rw [h1, h2]⟩

/-- A concrete square root adequate for the C9 scenario. -/
def sq9 : ℚ → ℚ := fun q => if q = 4/25 then 2/5 else 0

/-- Witness for C9 with a concrete square-root function. -/
theorem collision_equal_mass_swap_witness :
    collisionPass sq9 1 [(1, pA), (2, pB)] = [(1, pA), (2, pB)] ∧
    collisionPass sq9 2 [(1, pA), (2, pB)] =
      [(1, { pA with velocity := ⟨-2, 0⟩ }), (2, { pB with velocity := ⟨2, 0⟩ })] ∧
    collisionPass sq9 2 (collisionPass sq9 1 [(1, pA), (2, pB)]) =
      [(1, { pA with velocity := ⟨-2, 0⟩ }), (2, { pB with velocity := ⟨2, 0⟩ })] :=
  collision_equal_mass_swap sq9 (by simp [sq9])

lemma gamePlayersLoop_nil {sqrt : ℚ → ℚ} {dt radius : ℚ}
    {players : List (Nat × Player)} {pressed : List (Nat × List Nat)} {pcnt : Nat} :
    gamePlayersLoop sqrt dt [] players pressed radius pcnt = .ok (players, pcnt, []) :=
  rfl

lemma gamePlayersLoop_cons_none {sqrt : ℚ → ℚ} {dt radius : ℚ} {id : Nat}
    {rest : List Nat} {players : List (Nat × Player)}
    {pressed : List (Nat × List Nat)} {pcnt : Nat}
    (hp : findA id players = none) :
    gamePlayersLoop sqrt dt (id :: rest) players pressed radius pcnt =
      gamePlayersLoop sqrt dt rest players pressed radius pcnt := by
  rw [gamePlayersLoop, hp]

lemma gamePlayersLoop_cons_nokeys {sqrt : ℚ → ℚ} {dt radius : ℚ} {id : Nat}
    {rest : List Nat} {players : List (Nat × Player)}
    {pressed : List (Nat × List Nat)} {pcnt : Nat} {player : Player}
    (hp : findA id players = some player) (hk : findA id pressed = none) :
    gamePlayersLoop sqrt dt (id :: rest) players pressed radius pcnt = .error () := by
  rw [gamePlayersLoop, hp, hk]

lemma gamePlayersLoop_cons_some {sqrt : ℚ → ℚ} {dt radius : ℚ} {id : Nat}
    {rest : List Nat} {players : List (Nat × Player)}
    {pressed : List (Nat × List Nat)} {pcnt : Nat} {player : Player}
    {keys : List Nat}
    (hp : findA id players = some player) (hk : findA id pressed = some keys) :
    gamePlayersLoop sqrt dt (id :: rest) players pressed radius pcnt =
      Except.map
        (fun r => (r.1, r.2.1,
          (gamePlayerStep sqrt dt id player players keys radius pcnt).2.2 ++ r.2.2))
        (gamePlayersLoop sqrt dt rest
          (gamePlayerStep sqrt dt id player players keys radius pcnt).1 pressed
          radius (gamePlayerStep sqrt dt id player players keys radius pcnt).2.1) := by
  rw [gamePlayersLoop, hp, hk]

lemma gamePlayerStep_cmds {sqrt : ℚ → ℚ} {dt radius : ℚ} {id : Nat}
    {player : Player} {players : List (Nat × Player)} {keys : List Nat}
    {pcnt : Nat} :
    ∀ c ∈ (gamePlayerStep sqrt dt id player players keys radius pcnt).2.2,
      (∃ n i p la v, c = Obj.cmd (.setPosition n i p la v)) ∨
        ∃ i, c = Obj.cmd (.removePlayer i) := by
  simp only [gamePlayerStep]
  split
  · intro c hc
    rcases List.mem_cons.mp hc with rfl | hc
    · exact .inl ⟨_, _, _, _, _, rfl⟩
    · rcases List.mem_singleton.mp hc with rfl
      exact .inr ⟨_, rfl⟩
  · intro c hc
    rcases List.mem_singleton.mp hc with rfl
    exact .inl ⟨_, _, _, _, _, rfl⟩

lemma gamePlayersLoop_cmds {sqrt : ℚ → ℚ} {dt radius : ℚ} {ids : List Nat}
    {players ps : List (Nat × Player)} {pressed : List (Nat × List Nat)}
    {pcnt pc : Nat} {cmds : List Obj}
    (h : gamePlayersLoop sqrt dt ids players pressed radius pcnt =
      .ok (ps, pc, cmds)) :
    ∀ c ∈ cmds, (∃ n i p la v, c = Obj.cmd (.setPosition n i p la v)) ∨
      ∃ i, c = Obj.cmd (.removePlayer i) := by
  induction ids generalizing players pcnt ps pc cmds with
  | nil =>
    rw [gamePlayersLoop_nil] at h
    obtain ⟨h1, h2⟩ := Prod.mk.inj (Except.ok.inj h)
    obtain ⟨h3, h4⟩ := Prod.mk.inj h2
    rw [← h4]
    intro c hc
    exact absurd hc (List.not_mem_nil c)
  | cons id rest ih =>
    rcases hp : findA id players with _ | player
    · rw [gamePlayersLoop_cons_none hp] at h
      exact ih h
    · rcases hk : findA id pressed with _ | keys
      · rw [gamePlayersLoop_cons_nokeys hp hk] at h
        cases h
      · rw [gamePlayersLoop_cons_some hp hk] at h
        rcases hrec : gamePlayersLoop sqrt dt rest
            (gamePlayerStep sqrt dt id player players keys radius pcnt).1 pressed
            radius (gamePlayerStep sqrt dt id player players keys radius pcnt).2.1
          with e | r
        · rw [hrec] at h
          cases h
        · rw [hrec] at h
          simp only [Except.map] at h
          obtain ⟨h1, h2⟩ := Prod.mk.inj (Except.ok.inj h)
          obtain ⟨h3, h4⟩ := Prod.mk.inj h2
          rw [← h4]
          intro c hc
          rcases List.mem_append.mp hc with hm | hm
          · exact gamePlayerStep_cmds c hm
          · exact ih (by rw [hrec, show r = (r.1, r.2.1, r.2.2) from rfl]) c hm

lemma gameUpdate_cases {sqrt : ℚ → ℚ} {dt : ℚ} {st st' : GameState}
    {cmds : List Obj} (h : gameUpdate sqrt dt st = .ok (st', cmds)) :
    ∃ players' pcnt' cmds2,
      gamePlayersLoop sqrt dt (keysA st.scope.players) st.scope.players
        st.pressed_keys
        (if st.scope.circle_radius > 2 then st.scope.circle_radius - (2/5) * dt
         else st.scope.circle_radius) st.positionCount =
        .ok (players', pcnt', cmds2) ∧
      st' = { st with
                scope := { st.scope with
                  circle_radius :=
                    (if st.scope.circle_radius > 2 then
                       st.scope.circle_radius - (2/5) * dt
                     else st.scope.circle_radius),
                  players := players' },
                radiusCount :=
                  (if st.scope.circle_radius > 2 then st.radiusCount + 1
                   else st.radiusCount),
                positionCount := pcnt' } ∧
      cmds = (if st.scope.circle_radius > 2 then
                [Obj.cmd (.setRadius st.radiusCount
                  (if st.scope.circle_radius > 2 then
                     st.scope.circle_radius - (2/5) * dt
                   else st.scope.circle_radius))]
              else []) ++ cmds2 := by
  simp only [gameUpdate] at h
  rcases hpl : gamePlayersLoop sqrt dt (keysA st.scope.players) st.scope.players
      st.pressed_keys
      (if st.scope.circle_radius > 2 then st.scope.circle_radius - (2/5) * dt
       else st.scope.circle_radius) st.positionCount with e | r
  · rw [hpl] at h
    cases h
  · rw [hpl] at h
    obtain ⟨h1, h2⟩ := Prod.mk.inj (Except.ok.inj h)
    refine ⟨r.1, r.2.1, r.2.2, ?_, h1.symm, h2.symm⟩
    rfl

lemma gameUpdate_no_players {sqrt : ℚ → ℚ} {dt : ℚ} {st : GameState}
    (hp : st.scope.players = []) :
    gameUpdate sqrt dt st =
      .ok ({ st with
               scope := { st.scope with
                 circle_radius :=
                   (if st.scope.circle_radius > 2 then
                      st.scope.circle_radius - (2/5) * dt
                    else st.scope.circle_radius),
                 players := [] },
               radiusCount :=
                 (if st.scope.circle_radius > 2 then st.radiusCount + 1
                  else st.radiusCount) },
           if st.scope.circle_radius > 2 then
             [Obj.cmd (.setRadius st.radiusCount
               (if st.scope.circle_radius > 2 then
                  st.scope.circle_radius - (2/5) * dt
                else st.scope.circle_radius))]
           else []) := by
  simp only [gameUpdate, hp]
  rw [show keysA ([] : List (Nat × Player)) = [] from rfl, gamePlayersLoop_nil]
  simp

lemma gameUpdate_no_players_shrink {sqrt : ℚ → ℚ} {dt : ℚ} {st : GameState}
    (hp : st.scope.players = []) (hs : st.scope.circle_radius > 2) :
    gameUpdate sqrt dt st =
      .ok ({ st with
               scope := { st.scope with
                 circle_radius := st.scope.circle_radius - (2/5) * dt,
                 players := [] },
               radiusCount := st.radiusCount + 1 },
           [Obj.cmd (.setRadius st.radiusCount
             (st.scope.circle_radius - (2/5) * dt))]) := by
  rw [gameUpdate_no_players hp]
  simp [hs]

lemma gameTicks_radius (sqrt : ℚ → ℚ) : ∀ (dts : List ℚ) (st : GameState)
    (stF : GameState) (percmds : List (List Obj)),
    (∀ d ∈ dts, 0 ≤ d) → st.scope.players = [] →
    2 < st.scope.circle_radius - (2/5) * dts.sum →
    gameTicks sqrt st dts = .ok (stF, percmds) →
    stF.scope.circle_radius = st.scope.circle_radius - (2/5) * dts.sum ∧
    stF.scope.players = [] := by
  intro dts
  induction dts with
  | nil =>
    intro st stF percmds _ hp _ h
    rw [gameTicks] at h
    obtain ⟨h1, _⟩ := Prod.mk.inj (Except.ok.inj h)
    rw [← h1, List.sum_nil]
    constructor
    · ring
    · exact hp
  | cons dt rest ih =>
    intro st stF percmds hnn hp hrad h
    have hsum0 : 0 ≤ rest.sum :=
      List.sum_nonneg (fun d hd => hnn d (List.mem_cons_of_mem _ hd))
    have hdt0 : 0 ≤ dt := hnn dt (List.mem_cons_self _ _)
    rw [List.sum_cons] at hrad
    have hshrink : st.scope.circle_radius > 2 := by nlinarith
    rw [gameTicks, gameUpdate_no_players_shrink hp hshrink] at h
    have h' : Except.map
        (fun r => (r.1,
          [Obj.cmd (Cmd.setRadius st.radiusCount
            (st.scope.circle_radius - (2/5) * dt))] :: r.2))
        (gameTicks sqrt ({ st with
          scope := { st.scope with
            circle_radius := st.scope.circle_radius - (2/5) * dt,
            players := [] },
          radiusCount := st.radiusCount + 1 }) rest) = .ok (stF, percmds) := h
    rcases ht : gameTicks sqrt ({ st with
        scope := { st.scope with
          circle_radius := st.scope.circle_radius - (2/5) * dt,
          players := [] },
        radiusCount := st.radiusCount + 1 }) rest with e | r
    · rw [ht] at h'
      cases h'
    · rw [ht] at h'
      simp only [Except.map] at h'
      obtain ⟨h1, _⟩ := Prod.mk.inj (Except.ok.inj h')
      have hcond : 2 < st.scope.circle_radius - (2/5) * dt - (2/5) * rest.sum := by
        nlinarith
      obtain ⟨ih1, ih2⟩ := ih _ r.1 r.2 (fun d hd => hnn d (List.mem_cons_of_mem _ hd))
        rfl hcond (by rw [ht])
      rw [← h1]
      refine ⟨?_, ih2⟩
      rw [ih1]
      show st.scope.circle_radius - 2/5 * dt - 2/5 * rest.sum =
        st.scope.circle_radius - 2/5 * (dt + rest.sum)
      ring

/-- C8: starting from the initial arena (radius 20, shrink rate 2/5 units per
second, floor 2): (i) on any tick with radius above the floor, the radius
decreases by (2/5)*dt and a SetRadius command carrying the new radius is
broadcast; (ii) on any tick with radius at or below the floor, the radius is
unchanged and no SetRadius command is broadcast; (iii) from the initial state,
any sequence of nonnegative tick durations totalling 10 seconds leaves the
radius at 16; (iv) after ticks totalling less than 10 seconds, a final tick
completing the 10 seconds broadcasts SetRadius with radius 16, and the state
radius is 16. -/
theorem arena_shrink_floor_scenario :
    (∀ (sqrt : ℚ → ℚ) (dt : ℚ) (st st' : GameState) (cmds : List Obj),
      gameUpdate sqrt dt st = .ok (st', cmds) → 2 < st.scope.circle_radius →
      st'.scope.circle_radius = st.scope.circle_radius - (2/5) * dt ∧
      Obj.cmd (.setRadius st.radiusCount
        (st.scope.circle_radius - (2/5) * dt)) ∈ cmds) ∧
    (∀ (sqrt : ℚ → ℚ) (dt : ℚ) (st st' : GameState) (cmds : List Obj),
      gameUpdate sqrt dt st = .ok (st', cmds) → ¬(2 < st.scope.circle_radius) →
      st'.scope.circle_radius = st.scope.circle_radius ∧
      ∀ n r, Obj.cmd (.setRadius n r) ∉ cmds) ∧
    (∀ (sqrt : ℚ → ℚ) (dts : List ℚ) (stF : GameState) (percmds : List (List Obj)),
      (∀ d ∈ dts, 0 ≤ d) → dts.sum = 10 →
      gameTicks sqrt ({} : GameState) dts = .ok (stF, percmds) →
      stF.scope.circle_radius = 16) ∧
    (∀ (sqrt : ℚ → ℚ) (dts : List ℚ) (dtL : ℚ) (stMid : GameState)
      (pm : List (List Obj)) (stF : GameState) (cmdsL : List Obj),
      (∀ d ∈ dts, 0 ≤ d) → 0 ≤ dtL → dts.sum + dtL = 10 →
      gameTicks sqrt ({} : GameState) dts = .ok (stMid, pm) →
      gameUpdate sqrt dtL stMid = .ok (stF, cmdsL) →
      Obj.cmd (.setRadius stMid.radiusCount 16) ∈ cmdsL ∧
      stF.scope.circle_radius = 16) := by
  have base : ∀ (sqrt : ℚ → ℚ) (dt : ℚ) (st st' : GameState) (cmds : List Obj),
      gameUpdate sqrt dt st = .ok (st', cmds) → 2 < st.scope.circle_radius →
      st'.scope.circle_radius = st.scope.circle_radius - (2/5) * dt ∧
      Obj.cmd (.setRadius st.radiusCount
        (st.scope.circle_radius - (2/5) * dt)) ∈ cmds := by
    intro sqrt dt st st' cmds h hrad
    obtain ⟨players', pcnt', cmds2, hpl, hst', hcmds⟩ := gameUpdate_cases h
    constructor
    · rw [hst']
      show (if st.scope.circle_radius > 2 then
        st.scope.circle_radius - (2/5) * dt else st.scope.circle_radius) = _
      rw [if_pos hrad]
    · rw [hcmds, if_pos hrad, if_pos hrad]
      exact List.mem_append.mpr (.inl (List.mem_singleton.mpr rfl))
  have hinit : ({} : GameState).scope.circle_radius = 20 := rfl
  refine ⟨base, ?_, ?_, ?_⟩
  · intro sqrt dt st st' cmds h hrad
    obtain ⟨players', pcnt', cmds2, hpl, hst', hcmds⟩ := gameUpdate_cases h
    constructor
    · rw [hst']
      show (if st.scope.circle_radius > 2 then
        st.scope.circle_radius - (2/5) * dt else st.scope.circle_radius) = _
      rw [if_neg hrad]
    · intro n r hc
      rw [hcmds, if_neg hrad, List.nil_append] at hc
      rcases gamePlayersLoop_cmds hpl _ hc with ⟨n2, i, p, la, v, he⟩ | ⟨i, he⟩ <;>
        simp at he
  · intro sqrt dts stF percmds hnn hsum h
    obtain ⟨h1, _⟩ := gameTicks_radius sqrt dts {} stF percmds hnn rfl
      (by rw [hinit, hsum]; norm_num) h
    rw [h1, hinit, hsum]
    norm_num
  · intro sqrt dts dtL stMid pm stF cmdsL hnn hdtL hsum hticks hupd
    have hsum10 : dts.sum ≤ 10 := by linarith
    obtain ⟨h1, _⟩ := gameTicks_radius sqrt dts {} stMid pm hnn rfl
      (by rw [hinit]; nlinarith [List.sum_nonneg (fun d hd => hnn d hd)]) hticks
    rw [hinit] at h1
    have hrad : 2 < stMid.scope.circle_radius := by
      rw [h1]
      nlinarith [List.sum_nonneg (fun d hd => hnn d hd)]
    obtain ⟨hb1, hb2⟩ := base sqrt dtL stMid stF cmdsL hupd hrad
    have h16 : stMid.scope.circle_radius - (2/5) * dtL = 16 := by
      rw [h1]
      nlinarith
    rw [h16] at hb1 hb2
    exact ⟨hb2, hb1⟩

def stShr : GameState :=
  { scope := { circle_radius := 16, players := [] }, radiusCount := 1 }

theorem arena_shrink_floor_scenario_witness :
    gameTicks (fun _ => 0) ({} : GameState) [10] =
      .ok (stShr, [[Obj.cmd (.setRadius 0 16)]]) ∧
    stShr.scope.circle_radius = 16 := by
  have h20 : ({} : GameState).scope.circle_radius = 20 := rfl
  have hshrink : ({} : GameState).scope.circle_radius > 2 := by rw [h20]; norm_num
  have hrad : ({} : GameState).scope.circle_radius - (2/5) * (10:ℚ) = 16 := by
    rw [h20]; norm_num
  have hg : gameTicks (fun _ => 0) ({} : GameState) [10] =
      .ok (stShr, [[Obj.cmd (.setRadius 0 16)]]) := by
    rw [gameTicks, gameUpdate_no_players_shrink rfl hshrink, hrad]
    rfl
  refine ⟨hg, ?_⟩
  exact arena_shrink_floor_scenario.2.2.1 (fun _ => 0) [10] stShr
    [[Obj.cmd (.setRadius 0 16)]]
    (by intro d hd; rw [List.mem_singleton.mp hd]; norm_num)
    (by simp) hg
/-! ## Claim C6: the per-player broadcast and its acceleration field -/

/-- The C6 scenario state: one connected player (id 1, fresh) whose pressed
key set is `{K_w}`. -/
def stC6 : GameState :=
  { pressed_keys := [(1, [K_w])],
    scope := { players := [(1, Player.fresh 1)] } }

/-- Player 1 after one update with keys `[K_w]` and dt 1/10 from fresh:
acceleration (0, -13/2), velocity (0, -13/20), position (0, -13/200) — and
`last_acceleration` still its initial zero. -/
def pC6 : Player :=
  { Player.fresh 1 with
      acceleration := ⟨0, -13/2⟩
      velocity := ⟨0, -13/20⟩
      position := ⟨0, -13/200⟩ }

/-- **C6 (code bug).**  The spec says each tick broadcasts
`SetPlayerPosition` carrying the player's post-step kinematic state, in
particular "the last-computed acceleration that resulted from the physics
integration performed on this tick".  In the code `Player.physics` writes
the computed acceleration only to `acceleration` and never to
`last_acceleration` (which stays at its `__post_init__` zero forever), yet
`GameServer.update` broadcasts `player.last_acceleration`.  (1) For every
player, pressed-key set and timestep, `Player.update` leaves
`last_acceleration` unchanged.  (2) Concretely: one fresh player holding W
for a 1/10 s tick gets acceleration (0, -13/2), but the broadcast
`SetPositionCommand` carries acceleration `Vec.zero`. -/
theorem broadcast_acceleration_stale :
    (∀ (sqrt : ℚ → ℚ) (pressed : List Nat) (dt : ℚ) (p : Player),
      (Player.update sqrt pressed dt p).last_acceleration =
        p.last_acceleration) ∧
    ∀ sqrt : ℚ → ℚ, sqrt 0 = 0 → sqrt 1 = 1 → sqrt (169/40000) = 13/200 →
      ∃ st' : GameState,
        gameUpdate sqrt (1/10) stC6 =
          .ok (st', [Obj.cmd (.setRadius 0 (499/25)),
                     Obj.cmd (.setPosition 0 1 ⟨0, -13/200⟩ Vec.zero
                       ⟨0, -13/20⟩)]) ∧
        (findA 1 st'.scope.players).map Player.acceleration =
          some ⟨0, -13/2⟩ ∧
        (⟨0, -13/2⟩ : Vec) ≠ Vec.zero := by
  refine ⟨fun _ _ _ _ => rfl, ?_⟩
  intro sqrt h0 h1 hroot
  have hupd : Player.update sqrt [K_w] (1/10) (Player.fresh 1) = pC6 := by
    norm_num [Player.update, Player.input, Player.input_vector, Player.physics,
      Vec.add, Vec.sub, Vec.smul, Vec.sdiv, Vec.lsq, Vec.zero, Player.fresh,
      K_w, K_UP, K_a, K_LEFT, K_s, K_DOWN, K_d, K_RIGHT, K_SPACE, h0, h1, pC6]
  have hcp : collisionPass sqrt 1 (setA 1 pC6 [(1, Player.fresh 1)]) =
      [(1, pC6)] := rfl
  have hl : pC6.position.lsq = 169/40000 := by
    norm_num [pC6, Vec.lsq, Player.fresh]
  have hstep : gamePlayerStep sqrt (1/10) 1 (Player.fresh 1)
      [(1, Player.fresh 1)] [K_w] (499/25) 0 =
      ([(1, pC6)], 1, [Obj.cmd (.setPosition 0 1 ⟨0, -13/200⟩ Vec.zero
        ⟨0, -13/20⟩)]) := by
    simp only [gamePlayerStep]
    rw [hupd, hcp]
    rw [show findA 1 [(1, pC6)] = some pC6 from rfl]
    simp only [Option.getD]
    rw [hl, hroot, if_neg (by norm_num)]
    rfl
  have hloop : gamePlayersLoop sqrt (1/10) [1] [(1, Player.fresh 1)]
      [(1, [K_w])] (499/25) 0 =
      .ok ([(1, pC6)], 1, [Obj.cmd (.setPosition 0 1 ⟨0, -13/200⟩ Vec.zero
        ⟨0, -13/20⟩)]) := by
    rw [gamePlayersLoop_cons_some
      (show findA 1 [(1, Player.fresh 1)] = some (Player.fresh 1) from rfl)
      (show findA 1 [(1, [K_w])] = some [K_w] from rfl), hstep,
      gamePlayersLoop_nil]
    rfl
  have hupdate : gameUpdate sqrt (1/10) stC6 =
      .ok ({ stC6 with
               scope := { stC6.scope with
                            circle_radius := 499/25,
                            players := [(1, pC6)] },
               radiusCount := 1, positionCount := 1 },
           [Obj.cmd (.setRadius 0 (499/25)),
            Obj.cmd (.setPosition 0 1 ⟨0, -13/200⟩ Vec.zero ⟨0, -13/20⟩)]) := by
    simp only [gameUpdate]
    rw [show stC6.scope.circle_radius = (20:ℚ) from rfl]
    have hc : (20:ℚ) > 2 := by norm_num
    simp only [if_pos hc]
    rw [show (20:ℚ) - 2/5 * (1/10) = 499/25 from by norm_num]
    rw [show stC6.scope.players = [(1, Player.fresh 1)] from rfl,
      show keysA [(1, Player.fresh 1)] = [1] from rfl,
      show stC6.pressed_keys = [(1, [K_w])] from rfl,
      show stC6.positionCount = 0 from rfl, hloop]
    rfl
  exact ⟨_, hupdate, rfl, by norm_num [Vec.zero, Vec.mk.injEq]⟩

/-- A square-root table adequate for the C6 scenario. -/
def sqC6 : ℚ → ℚ := fun q =>
  if q = 0 then 0 else if q = 1 then 1 else if q = 169/40000 then 13/200 else 0

theorem broadcast_acceleration_stale_witness :
    (Player.update sqC6 [K_w] (1/10) (Player.fresh 1)).last_acceleration =
      (Player.fresh 1).last_acceleration ∧
    ∃ st' : GameState,
      gameUpdate sqC6 (1/10) stC6 =
        .ok (st', [Obj.cmd (.setRadius 0 (499/25)),
                   Obj.cmd (.setPosition 0 1 ⟨0, -13/200⟩ Vec.zero
                     ⟨0, -13/20⟩)]) ∧
      (findA 1 st'.scope.players).map Player.acceleration =
        some ⟨0, -13/2⟩ ∧
      (⟨0, -13/2⟩ : Vec) ≠ Vec.zero :=
  ⟨broadcast_acceleration_stale.1 sqC6 [K_w] (1/10) (Player.fresh 1),
   broadcast_acceleration_stale.2 sqC6 (by norm_num [sqC6])
     (by norm_num [sqC6]) (by norm_num [sqC6])⟩

/-! ## Claim C10: every mapped player has a pressed-key entry -/

section C10Assoc

variable {κ α : Type} [DecidableEq κ]

lemma mem_keysA_of_findA {k : κ} {v : α} {l : List (κ × α)}
    (h : findA k l = some v) : k ∈ keysA l := by
  by_contra hc
  rw [findA_none_of_not_mem_keysA hc] at h
  cases h

lemma findA_some_of_mem_keysA {k : κ} {l : List (κ × α)}
    (h : k ∈ keysA l) : ∃ v, findA k l = some v := by
  induction l with
  | nil => cases h
  | cons p rest ih =>
    obtain ⟨pk, pv⟩ := p
    rw [findA]
    by_cases hpk : pk = k
    · rw [if_pos hpk]
      exact ⟨pv, rfl⟩
    · rw [if_neg hpk]
      simp only [keysA, List.map_cons, List.mem_cons] at h
      rcases h with h | h
      · exact absurd h.symm hpk
      · exact ih h

lemma not_mem_keysA_eraseA_self {k : κ} {l : List (κ × α)}
    (h : (keysA l).Nodup) : k ∉ keysA (eraseA k l) := by
  intro hc
  obtain ⟨v, hv⟩ := findA_some_of_mem_keysA hc
  rw [findA_eraseA_self h] at hv
  cases hv

lemma mem_keysA_eraseA_of_ne {k k0 : κ} {l : List (κ × α)}
    (hne : k ≠ k0) (h : k ∈ keysA l) : k ∈ keysA (eraseA k0 l) := by
  obtain ⟨v, hv⟩ := findA_some_of_mem_keysA h
  exact mem_keysA_of_findA (by rw [findA_eraseA_ne hne, hv])

lemma keysA_setA_of_mem {k : κ} {v : α} {l : List (κ × α)}
    (h : k ∈ keysA l) : keysA (setA k v l) = keysA l := by
  induction l with
  | nil => cases h
  | cons p rest ih =>
    obtain ⟨pk, pv⟩ := p
    rw [setA]
    by_cases hpk : pk = k
    · rw [if_pos hpk]
      simp only [keysA, List.map_cons]
      rw [hpk]
    · rw [if_neg hpk]
      have hr : k ∈ keysA rest := by
        rcases List.mem_cons.mp (show k ∈ pk :: keysA rest from h) with h' | h'
        · exact absurd h'.symm hpk
        · exact h'
      show pk :: keysA (setA k v rest) = pk :: keysA rest
      rw [ih hr]

end C10Assoc

lemma keysA_collideStep {sqrt : ℚ → ℚ} {selfId oid : Nat}
    {ps : List (Nat × Player)} :
    keysA (collideStep sqrt selfId ps oid) = keysA ps := by
  rcases h1 : findA selfId ps with _ | selfP
  · simp only [collideStep, h1]
  · rcases h2 : findA oid ps with _ | other
    · simp only [collideStep, h1, h2]
    · have hs : selfId ∈ keysA ps := mem_keysA_of_findA h1
      have ho : oid ∈ keysA ps := mem_keysA_of_findA h2
      simp only [collideStep, h1, h2]
      by_cases he : selfId = oid
      · rw [if_pos he]
      · rw [if_neg he]
        rw [keysA_setA_of_mem (by rw [keysA_setA_of_mem hs]; exact ho),
          keysA_setA_of_mem hs]

lemma keysA_collisionPass {sqrt : ℚ → ℚ} {selfId : Nat}
    {players : List (Nat × Player)} :
    keysA (collisionPass sqrt selfId players) = keysA players := by
  have hgen : ∀ (oids : List Nat) (acc : List (Nat × Player)),
      keysA (oids.foldl (collideStep sqrt selfId) acc) = keysA acc := by
    intro oids
    induction oids with
    | nil => intro acc; rfl
    | cons o rest ih =>
      intro acc
      rw [List.foldl_cons, ih, keysA_collideStep]
  exact hgen (keysA players) players

lemma gamePlayerStep_keys {sqrt : ℚ → ℚ} {dt radius : ℚ} {id : Nat}
    {player : Player} {players : List (Nat × Player)} {keys : List Nat}
    {pcnt : Nat} (hid : id ∈ keysA players) :
    (∀ k ∈ keysA (gamePlayerStep sqrt dt id player players keys radius pcnt).1,
      k ∈ keysA players) ∧
    ((keysA players).Nodup →
      (keysA (gamePlayerStep sqrt dt id player players keys radius pcnt).1).Nodup) := by
  have hpl2 : keysA (collisionPass sqrt id
      (setA id (Player.update sqrt keys dt player) players)) = keysA players := by
    rw [keysA_collisionPass, keysA_setA_of_mem hid]
  simp only [gamePlayerStep]
  split
  · constructor
    · intro k hk
      replace hk : k ∈ keysA (eraseA id (collisionPass sqrt id
        (setA id (Player.update sqrt keys dt player) players))) := hk
      rw [← hpl2]
      exact keysA_eraseA_sublist.subset hk
    · intro hn
      show (keysA (eraseA id (collisionPass sqrt id
        (setA id (Player.update sqrt keys dt player) players)))).Nodup
      exact keysA_eraseA_nodup (by rw [hpl2]; exact hn)
  · constructor
    · intro k hk
      replace hk : k ∈ keysA (collisionPass sqrt id
        (setA id (Player.update sqrt keys dt player) players)) := hk
      rw [← hpl2]
      exact hk
    · intro hn
      show (keysA (collisionPass sqrt id
        (setA id (Player.update sqrt keys dt player) players))).Nodup
      rw [hpl2]
      exact hn

lemma gamePlayersLoop_keys {sqrt : ℚ → ℚ} {dt radius : ℚ} {ids : List Nat}
    {players ps : List (Nat × Player)} {pressed : List (Nat × List Nat)}
    {pcnt pc : Nat} {cmds : List Obj}
    (h : gamePlayersLoop sqrt dt ids players pressed radius pcnt =
      .ok (ps, pc, cmds)) :
    (∀ k ∈ keysA ps, k ∈ keysA players) ∧
    ((keysA players).Nodup → (keysA ps).Nodup) := by
  induction ids generalizing players pcnt ps pc cmds with
  | nil =>
    rw [gamePlayersLoop_nil] at h
    obtain ⟨h1, _⟩ := Prod.mk.inj (Except.ok.inj h)
    rw [← h1]
    exact ⟨fun k hk => hk, fun hn => hn⟩
  | cons id rest ih =>
    rcases hp : findA id players with _ | player
    · rw [gamePlayersLoop_cons_none hp] at h
      exact ih h
    · rcases hk : findA id pressed with _ | keys
      · rw [gamePlayersLoop_cons_nokeys hp hk] at h
        cases h
      · have hid : id ∈ keysA players := mem_keysA_of_findA hp
        rw [gamePlayersLoop_cons_some hp hk] at h
        rcases hrec : gamePlayersLoop sqrt dt rest
            (gamePlayerStep sqrt dt id player players keys radius pcnt).1 pressed
            radius (gamePlayerStep sqrt dt id player players keys radius pcnt).2.1
          with e | r
        · rw [hrec] at h
          cases h
        · rw [hrec] at h
          simp only [Except.map] at h
          obtain ⟨h1, _⟩ := Prod.mk.inj (Except.ok.inj h)
          obtain ⟨hsub, hnd⟩ :=
            ih (by rw [hrec, show r = (r.1, r.2.1, r.2.2) from rfl])
          obtain ⟨hsub2, hnd2⟩ :=
            @gamePlayerStep_keys sqrt dt radius id player players keys pcnt hid
          rw [← h1]
          exact ⟨fun k hm => hsub2 k (hsub k hm), fun hn => hnd (hnd2 hn)⟩

lemma gamePlayersLoop_ok {sqrt : ℚ → ℚ} {dt : ℚ} (ids : List Nat)
    (players : List (Nat × Player)) (pressed : List (Nat × List Nat))
    (radius : ℚ) (pcnt : Nat)
    (h : ∀ k ∈ keysA players, k ∈ keysA pressed) :
    ∃ r, gamePlayersLoop sqrt dt ids players pressed radius pcnt = .ok r := by
  induction ids generalizing players pcnt with
  | nil => exact ⟨_, gamePlayersLoop_nil⟩
  | cons id rest ih =>
    rcases hp : findA id players with _ | player
    · rw [gamePlayersLoop_cons_none hp]
      exact ih players pcnt h
    · have hid : id ∈ keysA players := mem_keysA_of_findA hp
      obtain ⟨s, hs⟩ := findA_some_of_mem_keysA (h id hid)
      rw [gamePlayersLoop_cons_some hp hs]
      obtain ⟨r, hr⟩ := ih
        (gamePlayerStep sqrt dt id player players s radius pcnt).1
        (gamePlayerStep sqrt dt id player players s radius pcnt).2.1
        (fun k hm => h k ((gamePlayerStep_keys hid).1 k hm))
      rw [hr]
      exact ⟨_, rfl⟩

lemma gameUpdate_total {sqrt : ℚ → ℚ} {dt : ℚ} {st : GameState}
    (h : ∀ k ∈ keysA st.scope.players, k ∈ keysA st.pressed_keys) :
    ∃ r, gameUpdate sqrt dt st = .ok r := by
  obtain ⟨⟨ps, pc, cmds⟩, hr⟩ := @gamePlayersLoop_ok sqrt dt (keysA st.scope.players)
    st.scope.players st.pressed_keys
    (if st.scope.circle_radius > 2 then st.scope.circle_radius - (2/5) * dt
     else st.scope.circle_radius) st.positionCount h
  rcases hg : gameUpdate sqrt dt st with e | r2
  · exfalso
    simp only [gameUpdate] at hg
    rw [hr] at hg
    cases hg
  · exact ⟨r2, rfl⟩

/-- The C10 invariant: both maps have duplicate-free keys, and every player
id is a pressed-keys id. -/
def GoodKeys (st : GameState) : Prop :=
  (keysA st.scope.players).Nodup ∧ (keysA st.pressed_keys).Nodup ∧
    ∀ k ∈ keysA st.scope.players, k ∈ keysA st.pressed_keys

lemma reachable_goodKeys {st : GameState} (h : GameReachable st) :
    GoodKeys st := by
  induction h with
  | init =>
    exact ⟨List.nodup_nil, List.nodup_nil, fun k hk => absurd hk (List.not_mem_nil k)⟩
  | connect s a _ ih =>
    obtain ⟨hn1, hn2, hsub⟩ := ih
    refine ⟨?_, ?_, ?_⟩
    · show (keysA (setA s.next_id (Player.fresh s.next_id) s.scope.players)).Nodup
      exact keysA_setA_nodup hn1
    · show (keysA (setA s.next_id ([] : List Nat) s.pressed_keys)).Nodup
      exact keysA_setA_nodup hn2
    · intro k hk
      replace hk : k ∈ keysA (setA s.next_id (Player.fresh s.next_id)
        s.scope.players) := hk
      show k ∈ keysA (setA s.next_id ([] : List Nat) s.pressed_keys)
      rcases mem_keysA_setA.mp hk with hm | hm
      · exact mem_keysA_setA.mpr (.inl (hsub k hm))
      · exact mem_keysA_setA.mpr (.inr hm)
  | disconnect s a s' cmds _ heq ih =>
    obtain ⟨hn1, hn2, hsub⟩ := ih
    simp only [gameHandleDisconnect] at heq
    rcases ha : findA a s.address_to_id with _ | id
    · simp only [ha] at heq
      cases heq
    · simp only [ha] at heq
      rcases hp : findA id s.scope.players with _ | pl
      · simp only [hp] at heq
        obtain ⟨h1, _⟩ := Prod.mk.inj (Except.ok.inj heq)
        rw [← h1]
        exact ⟨hn1, hn2, hsub⟩
      · simp only [hp] at heq
        obtain ⟨h1, _⟩ := Prod.mk.inj (Except.ok.inj heq)
        rw [← h1]
        refine ⟨?_, ?_, ?_⟩
        · show (keysA (eraseA id s.scope.players)).Nodup
          exact keysA_eraseA_nodup hn1
        · show (keysA (eraseA id s.pressed_keys)).Nodup
          exact keysA_eraseA_nodup hn2
        · intro k hk
          replace hk : k ∈ keysA (eraseA id s.scope.players) := hk
          show k ∈ keysA (eraseA id s.pressed_keys)
          have hkp : k ∈ keysA s.scope.players := keysA_eraseA_sublist.subset hk
          have hne : k ≠ id := by
            intro hc
            rw [hc] at hk
            exact not_mem_keysA_eraseA_self hn1 hk
          exact mem_keysA_eraseA_of_ne hne (hsub k hkp)
  | handle s a o s' _ heq ih =>
    obtain ⟨hn1, hn2, hsub⟩ := ih
    simp only [gameHandle] at heq
    rcases ha : findA a s.address_to_id with _ | id
    · simp only [ha] at heq
      cases heq
    · simp only [ha] at heq
      rcases o with c | key | key | _ | b
      · cases heq
      · rcases hpk : findA id s.pressed_keys with _ | s0
        · simp only [hpk] at heq
          cases heq
        · simp only [hpk] at heq
          cases Except.ok.inj heq
          refine ⟨hn1, ?_, ?_⟩
          · show (keysA (setA id (delS key s0) s.pressed_keys)).Nodup
            exact keysA_setA_nodup hn2
          · intro k hk
            show k ∈ keysA (setA id (delS key s0) s.pressed_keys)
            exact mem_keysA_setA.mpr (.inl (hsub k hk))
      · rcases hpk : findA id s.pressed_keys with _ | s0
        · simp only [hpk] at heq
          cases heq
        · simp only [hpk] at heq
          cases Except.ok.inj heq
          refine ⟨hn1, ?_, ?_⟩
          · show (keysA (setA id (addS key s0) s.pressed_keys)).Nodup
            exact keysA_setA_nodup hn2
          · intro k hk
            show k ∈ keysA (setA id (addS key s0) s.pressed_keys)
            exact mem_keysA_setA.mpr (.inl (hsub k hk))
      · cases Except.ok.inj heq
        exact ⟨hn1, hn2, hsub⟩
      · cases heq
  | update s sqrt dt s' cmds _ heq ih =>
    obtain ⟨hn1, hn2, hsub⟩ := ih
    obtain ⟨players', pcnt', cmds2, hpl, hst', _⟩ := gameUpdate_cases heq
    obtain ⟨hksub, hknd⟩ := gamePlayersLoop_keys hpl
    rw [hst']
    refine ⟨?_, hn2, ?_⟩
    · show (keysA players').Nodup
      exact hknd hn1
    · intro k hk
      replace hk : k ∈ keysA players' := hk
      show k ∈ keysA s.pressed_keys
      exact hsub k (hksub k hk)

/-- **C10.**  In every `GameServer` state reachable through connects,
disconnects, input handling and update ticks, every id in the player map has
an entry in the pressed-keys map, so `GameServer.update`'s
`self.pressed_keys[id_]` lookup never fails: `update` succeeds on every
reachable state, for every square-root behaviour and timestep. -/
theorem players_have_pressed_keys {st : GameState} (h : GameReachable st) :
    (∀ k ∈ keysA st.scope.players, k ∈ keysA st.pressed_keys) ∧
    ∀ (sqrt : ℚ → ℚ) (dt : ℚ), ∃ r, gameUpdate sqrt dt st = .ok r := by
  obtain ⟨_, _, hsub⟩ := reachable_goodKeys h
  exact ⟨hsub, fun sqrt dt => gameUpdate_total hsub⟩

theorem players_have_pressed_keys_witness :
    (∀ k ∈ keysA (gameHandleConnect {} ((0 : Nat), (0 : Nat))).1.scope.players,
      k ∈ keysA (gameHandleConnect {} ((0 : Nat), (0 : Nat))).1.pressed_keys) ∧
    ∀ (sqrt : ℚ → ℚ) (dt : ℚ),
      ∃ r, gameUpdate sqrt dt (gameHandleConnect {} ((0 : Nat), (0 : Nat))).1 =
        .ok r :=
  players_have_pressed_keys
    (GameReachable.connect {} ((0 : Nat), (0 : Nat)) GameReachable.init)
